import Mathlib

/-!
Verification development for the `pintu` smart-doorbell repository.

Each Python component relevant to the frozen claims is shallowly embedded as
executable Lean definitions, and the claims are settled as theorems about
those definitions.
-/

set_option autoImplicit false

namespace Pintu

/-! ## Frame buffer (`pintu/imaging.py`, class `FrameBuffer`)

`FrameBuffer` is a `collections.deque` with a fixed `maxlen`.  We embed it as
a capacity together with the list of buffered items, oldest first.  The deque
is generic in its element type, so the embedding is as well.
-/

/-- Embedding of `FrameBuffer` (`imaging.py`): a `collections.deque` with a
fixed `maxlen`, holding buffered frames oldest-first. -/
structure FrameBuffer (α : Type) where
  maxlen : Nat
  data : List α
  deriving Repr, DecidableEq

namespace FrameBuffer

/-- Embedding of `FrameBuffer.full`: `len(self) >= self.maxlen`. -/
def full {α : Type} (b : FrameBuffer α) : Bool :=
  decide (b.maxlen ≤ b.data.length)

/-- Embedding of `FrameBuffer.shift`: pop the oldest item if the buffer is
full, then append the new item; return the popped item (if any). -/
def shift {α : Type} (b : FrameBuffer α) (item : α) : Option α × FrameBuffer α :=
  if b.full then (b.data.head?, ⟨b.maxlen, b.data.tail ++ [item]⟩)
  else (none, ⟨b.maxlen, b.data ++ [item]⟩)

/-- Shift a whole list of items into the buffer, one at a time. -/
def shiftAll {α : Type} (b : FrameBuffer α) : List α → FrameBuffer α
  | [] => b
  | x :: xs => shiftAll (shift b x).2 xs

@[simp] theorem shiftAll_nil {α : Type} (b : FrameBuffer α) : shiftAll b [] = b := rfl

@[simp] theorem shiftAll_cons {α : Type} (b : FrameBuffer α) (x : α) (xs : List α) :
    shiftAll b (x :: xs) = shiftAll (shift b x).2 xs := rfl

theorem shift_maxlen {α : Type} (b : FrameBuffer α) (x : α) :
    ((shift b x).2).maxlen = b.maxlen := by
  unfold shift
  split <;> rfl

theorem tail_append_singleton {α : Type} (l : List α) (x : α) (h : l ≠ []) :
    l.tail ++ [x] = (l ++ [x]).tail := by
  cases l with
  | nil => exact absurd rfl h
  | cons a as => simp

theorem shift_data {α : Type} (b : FrameBuffer α) (x : α)
    (hmax : 1 ≤ b.maxlen) (hcap : b.data.length ≤ b.maxlen) :
    ((shift b x).2).data = (b.data ++ [x]).drop (b.data.length + 1 - b.maxlen) := by
  unfold shift full
  by_cases h : b.maxlen ≤ b.data.length
  · have hlen : b.data.length = b.maxlen := Nat.le_antisymm hcap h
    have hsub : b.data.length + 1 - b.maxlen = 1 := by omega
    rw [if_pos (by simpa using h), hsub, List.drop_one]
    exact tail_append_singleton _ _ (by
      intro he
      rw [he] at hlen
      simp at hlen
      omega)
  · have hsub : b.data.length + 1 - b.maxlen = 0 := by omega
    simp [h, hsub]

/-- Core invariant: shifting a list into a buffer within capacity leaves
exactly the most recent `maxlen` items, in insertion order. -/
theorem shiftAll_data {α : Type} (fs : List α) (b : FrameBuffer α)
    (hmax : 1 ≤ b.maxlen) (hcap : b.data.length ≤ b.maxlen) :
    (shiftAll b fs).data
      = (b.data ++ fs).drop (b.data.length + fs.length - b.maxlen) := by
  induction fs generalizing b with
  | nil => simp [Nat.sub_eq_zero_of_le hcap]
  | cons x xs ih =>
    rw [shiftAll_cons]
    have hmax' : 1 ≤ ((shift b x).2).maxlen := by rw [shift_maxlen]; exact hmax
    have hcapx : ((shift b x).2).data.length ≤ ((shift b x).2).maxlen := by
      rw [shift_maxlen, shift_data b x hmax hcap]
      simp [List.length_drop]
      omega
    have hj : b.data.length + 1 - b.maxlen ≤ (b.data ++ [x]).length := by
      have hx : (b.data ++ [x]).length = b.data.length + 1 := by simp
      omega
    rw [ih _ hmax' hcapx, shift_maxlen, shift_data b x hmax hcap]
    rw [List.length_drop, ← List.drop_append_of_le_length hj, List.drop_drop,
      List.append_assoc]
    congr 1
    simp only [List.length_append, List.length_cons, List.length_nil]
    omega

theorem shiftAll_maxlen {α : Type} (fs : List α) (b : FrameBuffer α) :
    (shiftAll b fs).maxlen = b.maxlen := by
  induction fs generalizing b with
  | nil => rfl
  | cons x xs ih => rw [shiftAll_cons, ih, shift_maxlen]

theorem head?_drop_eq {α : Type} (l : List α) (n : Nat) :
    (l.drop n).head? = l[n]? := by
  induction l generalizing n with
  | nil => simp
  | cons a as ih =>
    cases n with
    | zero => simp
    | succ m => simpa using ih m

/-- Running an empty buffer of capacity `N` over a prefix of `fs` keeps the
most recent `min i N` items. -/
theorem shiftAll_take_data {α : Type} (N : Nat) (hN : 1 ≤ N) (fs : List α) (i : Nat) :
    (shiftAll ⟨N, []⟩ (fs.take i)).data = (fs.take i).drop ((fs.take i).length - N) := by
  have h := shiftAll_data (fs.take i) ⟨N, []⟩ hN (by simp)
  simp only [List.nil_append, List.length_nil, Nat.zero_add] at h
  exact h

end FrameBuffer

/-- C2: For every `FrameBuffer` of capacity `N ≥ 1` and every sequence of
`N + k` items shifted in one at a time starting from an empty buffer, the
final buffer has length `N` and holds exactly the last `N` shifted items in
insertion order; at every intermediate state, `full` holds exactly when the
length equals the capacity; and `shift` returns the evicted oldest item
(the `(i - N)`-th shifted item) exactly when the buffer was full before the
shift, and `none` otherwise. -/
theorem claim_C2_frame_buffer_fifo (α : Type) (N k : Nat) (fs : List α)
    (hN : 1 ≤ N) (hlen : fs.length = N + k) :
    ((FrameBuffer.shiftAll ⟨N, []⟩ fs).data.length = N
      ∧ (FrameBuffer.shiftAll ⟨N, []⟩ fs).data = fs.drop k)
    ∧ (∀ i, i ≤ N + k →
        ((FrameBuffer.shiftAll ⟨N, []⟩ (fs.take i)).full = true
          ↔ (FrameBuffer.shiftAll ⟨N, []⟩ (fs.take i)).data.length = N))
    ∧ (∀ i, i < N + k → ∀ x,
        (FrameBuffer.shift (FrameBuffer.shiftAll ⟨N, []⟩ (fs.take i)) x).1
          = if N ≤ i then fs[i - N]? else none) := by
  have hdata : ∀ i, (FrameBuffer.shiftAll ⟨N, []⟩ (fs.take i)).data
      = (fs.take i).drop ((fs.take i).length - N) :=
    fun i => FrameBuffer.shiftAll_take_data N hN fs i
  have hlength : ∀ i, (FrameBuffer.shiftAll ⟨N, []⟩ (fs.take i)).data.length
      = min (fs.take i).length N := by
    intro i
    rw [hdata i, List.length_drop]
    omega
  have hml : ∀ i, (FrameBuffer.shiftAll ⟨N, []⟩ (fs.take i)).maxlen = N := by
    intro i
    simpa using FrameBuffer.shiftAll_maxlen (fs.take i) ⟨N, []⟩
  refine ⟨⟨?_, ?_⟩, ?_, ?_⟩
  · have h := hlength fs.length
    rw [List.take_length] at h
    rw [h, hlen]
    omega
  · have h := hdata fs.length
    rw [List.take_length] at h
    rw [h, hlen]
    congr 1
    omega
  · intro i hi
    rw [FrameBuffer.full, hml i, hlength i]
    have htl : (fs.take i).length = min i (N + k) := by simp [hlen]
    constructor
    · intro h
      have := of_decide_eq_true h
      omega
    · intro h
      apply decide_eq_true
      omega
  · intro i hi x
    have htl : (fs.take i).length = min i (N + k) := by simp [hlen]
    by_cases hfull : N ≤ i
    · have hfu : (FrameBuffer.shiftAll ⟨N, []⟩ (fs.take i)).full = true := by
        rw [FrameBuffer.full, hml i, hlength i]
        apply decide_eq_true
        omega
      rw [FrameBuffer.shift, hfu]
      simp only [if_pos hfull]
      rw [hdata i, FrameBuffer.head?_drop_eq]
      have hix : (fs.take i).length - N = i - N := by omega
      rw [hix]
      rw [List.getElem?_take_of_lt (by omega)]
      simp
    · have hfu : (FrameBuffer.shiftAll ⟨N, []⟩ (fs.take i)).full = false := by
        rw [FrameBuffer.full, hml i, hlength i]
        apply decide_eq_false
        omega
      rw [FrameBuffer.shift, hfu]
      simp [hfull]

/-! ## Stream ids (`pintu/util.py`, `stream_id`)

A Python `datetime` with a fixed-offset `tzinfo` is embedded by the instant it
denotes (microseconds since the Unix epoch, an `Int`) together with its
`utcoffset` in microseconds; a naive datetime (`tzinfo is None`) is embedded
by its broken-down fields read as if they were UTC, with `tz = none`.  The
broken-down local fields of an aware datetime are recovered as a function of
`instant + offset`, so this representation is isomorphic to CPython's for
fixed-offset timezones.  Comparison of aware datetimes in Python compares the
denoted instants.
-/

/-- Embedding of a Python `datetime.datetime` value (fixed-offset timezones). -/
structure PyDateTime where
  instant : Int
  tz : Option Int
  deriving Repr, DecidableEq

/-- Civil date `(year, month, day)` from a count of days since 1970-01-01
(the standard `civil_from_days` algorithm); embeds the date fields that
`datetime.strftime` renders for a UTC datetime. -/
def civilFromDays (z : Int) : Int × Nat × Nat :=
  let z' := z + 719468
  let era : Int := z'.fdiv 146097
  let doe : Nat := (z' - era * 146097).toNat
  let yoe : Nat := (doe - doe / 1460 + doe / 36524 - doe / 146096) / 365
  let y : Int := (yoe : Int) + era * 400
  let doy : Nat := doe - (365 * yoe + yoe / 4 - yoe / 100)
  let mp : Nat := (5 * doy + 2) / 153
  let d : Nat := doy - (153 * mp + 2) / 5 + 1
  let m : Nat := if mp < 10 then mp + 3 else mp - 9
  (if m ≤ 2 then y + 1 else y, m, d)

/-- The ASCII digit character for `n % 10`. -/
def digitChar (n : Nat) : Char := Char.ofNat (48 + n % 10)

/-- Zero-padded fixed-width decimal rendering (lowest digit last), as
produced by `strftime` field directives such as `%m`, `%H` or `%f`. -/
def padChars : Nat → Nat → List Char
  | 0, _ => []
  | w + 1, n => padChars w (n / 10) ++ [digitChar n]

/-- The `%Y%m%d` part of `pintu.default.STREAM_ID_TIMESTAMP_FORMAT` for the
given epoch day. -/
def dateChars (day : Int) : List Char :=
  let ymd := civilFromDays day
  padChars 4 ymd.1.toNat ++ (padChars 2 ymd.2.1 ++ padChars 2 ymd.2.2)

/-- The `%H%M%S-%f` part of `pintu.default.STREAM_ID_TIMESTAMP_FORMAT` for
the given microsecond-of-day. -/
def timeChars (tod : Nat) : List Char :=
  padChars 2 (tod / 3600000000)
    ++ (padChars 2 (tod % 3600000000 / 60000000)
      ++ (padChars 2 (tod % 60000000 / 1000000)
        ++ ('-' :: padChars 6 (tod % 1000000))))

/-- `strftime(STREAM_ID_TIMESTAMP_FORMAT)` of the UTC datetime denoting
`instant` (microseconds since the Unix epoch). -/
def streamIdChars (instant : Int) : List Char :=
  dateChars (instant / 86400000000) ++ timeChars (instant % 86400000000).toNat

/-- The stream id string for a UTC instant. -/
def streamIdFmt (instant : Int) : String := ⟨streamIdChars instant⟩

/-- The `naive_tz` argument of `stream_id`: `None`, a fixed-offset timezone,
or `Ellipsis` (= interpret naive timestamps in the platform-local zone). -/
inductive NaiveTzArg where
  | noTz
  | tzOffset (offsetMicros : Int)
  | localTz
  deriving Repr, DecidableEq

/-- Embedding of `stream_id` (`util.py`): reject naive timestamps unless
`naive_tz` is given, attach the requested timezone to naive timestamps,
convert to UTC, and format with `STREAM_ID_TIMESTAMP_FORMAT`.
`localOffsetMicros` is the platform-local utcoffset used by `astimezone`
when a naive timestamp is kept naive (the `Ellipsis` case). -/
def stream_id (timestamp : PyDateTime) (naive_tz : NaiveTzArg)
    (localOffsetMicros : Int) : Except String String :=
  match timestamp.tz with
  | none =>
    match naive_tz with
    | .noTz => .error "Unable to create a stream id from naive / timezone-unaware timestamp."
    | .tzOffset off => .ok (streamIdFmt (timestamp.instant - off))
    | .localTz => .ok (streamIdFmt (timestamp.instant - localOffsetMicros))
  | some _ => .ok (streamIdFmt timestamp.instant)

theorem padChars_length (w n : Nat) : (padChars w n).length = w := by
  induction w generalizing n with
  | zero => rfl
  | succ v ih => simp [padChars, ih]

theorem lex_append_of_length_eq {α : Type} {r : α → α → Prop} {A B : List α}
    (h : List.Lex r A B) (hl : A.length = B.length) (x y : List α) :
    List.Lex r (A ++ x) (B ++ y) := by
  induction h with
  | nil => simp at hl
  | @cons a l₁ l₂ h ih =>
    simp only [List.cons_append]
    exact List.Lex.cons (ih (by simpa using hl))
  | rel h =>
    simp only [List.cons_append]
    exact List.Lex.rel h

theorem digitChar_lt_aux {x y : Nat} (hx : x < 10) (hy : y < 10) (h : x < y) :
    Char.ofNat (48 + x) < Char.ofNat (48 + y) := by
  interval_cases x <;> interval_cases y <;> first | omega | decide

theorem digitChar_lt {a b : Nat} (h : a % 10 < b % 10) : digitChar a < digitChar b := by
  unfold digitChar
  exact digitChar_lt_aux (Nat.mod_lt _ (by omega)) (Nat.mod_lt _ (by omega)) h

theorem padChars_lex (w : Nat) : ∀ (n m : Nat), n < m → m < 10 ^ w →
    List.Lex (· < ·) (padChars w n) (padChars w m) := by
  induction w with
  | zero =>
    intro n m h hb
    exfalso
    simp at hb
    omega
  | succ v ih =>
    intro n m h hb
    simp only [padChars]
    rcases Nat.lt_or_ge (n / 10) (m / 10) with hd | hd
    · refine lex_append_of_length_eq (ih _ _ hd ?_) (by rw [padChars_length, padChars_length]) _ _
      have hp : 10 ^ (v + 1) = 10 ^ v * 10 := by ring
      rw [hp] at hb
      omega
    · have hle : n / 10 ≤ m / 10 := Nat.div_le_div_right (Nat.le_of_lt h)
      have heq : n / 10 = m / 10 := Nat.le_antisymm hle hd
      rw [heq]
      apply List.Lex.append_left
      exact List.Lex.rel (digitChar_lt (by omega))

theorem timeChars_lex {t1 t2 : Nat} (h : t1 < t2) (hb : t2 < 86400000000) :
    List.Lex (· < ·) (timeChars t1) (timeChars t2) := by
  unfold timeChars
  rcases Nat.lt_or_ge (t1 / 3600000000) (t2 / 3600000000) with hh | hh
  · exact lex_append_of_length_eq (padChars_lex 2 _ _ hh (by omega))
      (by rw [padChars_length, padChars_length]) _ _
  · have heq : t1 / 3600000000 = t2 / 3600000000 :=
      Nat.le_antisymm (Nat.div_le_div_right (Nat.le_of_lt h)) hh
    rw [heq]
    apply List.Lex.append_left
    rcases Nat.lt_or_ge (t1 % 3600000000 / 60000000) (t2 % 3600000000 / 60000000) with hm | hm
    · exact lex_append_of_length_eq (padChars_lex 2 _ _ hm (by omega))
        (by rw [padChars_length, padChars_length]) _ _
    · have heqm : t1 % 3600000000 / 60000000 = t2 % 3600000000 / 60000000 := by
        have : t1 % 3600000000 ≤ t2 % 3600000000 := by omega
        exact Nat.le_antisymm (Nat.div_le_div_right this) hm
      rw [heqm]
      apply List.Lex.append_left
      rcases Nat.lt_or_ge (t1 % 60000000 / 1000000) (t2 % 60000000 / 1000000) with hs | hs
      · exact lex_append_of_length_eq (padChars_lex 2 _ _ hs (by omega))
          (by rw [padChars_length, padChars_length]) _ _
      · have heqs : t1 % 60000000 / 1000000 = t2 % 60000000 / 1000000 := by
          have : t1 % 60000000 ≤ t2 % 60000000 := by omega
          exact Nat.le_antisymm (Nat.div_le_div_right this) hs
        rw [heqs]
        apply List.Lex.append_left
        exact List.Lex.cons (padChars_lex 6 _ _ (by omega) (by omega))

theorem streamIdChars_lex {i1 i2 : Int} (h : i1 < i2)
    (hday : i1 / 86400000000 = i2 / 86400000000) :
    List.Lex (· < ·) (streamIdChars i1) (streamIdChars i2) := by
  unfold streamIdChars
  rw [hday]
  apply List.Lex.append_left
  apply timeChars_lex <;> omega

/-- C5: for aware timestamps `t1 < t2` on the same UTC day, `stream_id`
succeeds on both and `stream_id(t1)` is lexicographically smaller than
`stream_id(t2)` (strings compared with the standard character order, as in
Python and in Redis stream-id ranges). -/
theorem claim_C5_stream_id_monotone (t1 t2 : PyDateTime) (o1 o2 : Int)
    (h1 : t1.tz = some o1) (h2 : t2.tz = some o2)
    (hlt : t1.instant < t2.instant)
    (hday : t1.instant / 86400000000 = t2.instant / 86400000000) :
    stream_id t1 .noTz 0 = .ok (streamIdFmt t1.instant)
    ∧ stream_id t2 .noTz 0 = .ok (streamIdFmt t2.instant)
    ∧ streamIdFmt t1.instant < streamIdFmt t2.instant := by
  refine ⟨by unfold stream_id; rw [h1], by unfold stream_id; rw [h2], ?_⟩
  rw [String.lt_iff_toList_lt]
  exact streamIdChars_lex hlt hday

/-- Witness for C5: the instants 1 µs and 2 µs past the epoch. -/
theorem claim_C5_stream_id_monotone_witness :
    ((⟨1, some 0⟩ : PyDateTime).tz = some 0 ∧ (⟨2, some 0⟩ : PyDateTime).tz = some 0
      ∧ (1 : Int) < 2 ∧ (1 : Int) / 86400000000 = (2 : Int) / 86400000000)
    ∧ (stream_id ⟨1, some 0⟩ .noTz 0 = .ok (streamIdFmt 1)
      ∧ stream_id ⟨2, some 0⟩ .noTz 0 = .ok (streamIdFmt 2)
      ∧ streamIdFmt 1 < streamIdFmt 2) :=
  ⟨⟨rfl, rfl, by decide, by decide⟩,
    claim_C5_stream_id_monotone ⟨1, some 0⟩ ⟨2, some 0⟩ 0 0 rfl rfl (by decide) (by decide)⟩

/-- C10: `stream_id` depends only on the denoted instant — two aware
timestamps denoting the same instant (possibly in different timezones) give
the same id string — and a naive timestamp with `naive_tz = None` is
rejected with a `ValueError`. -/
theorem claim_C10_stream_id_instant_only :
    (∀ (t1 t2 : PyDateTime) (o1 o2 : Int), t1.tz = some o1 → t2.tz = some o2 →
      t1.instant = t2.instant →
      ∀ (a1 a2 : NaiveTzArg) (loc1 loc2 : Int),
        stream_id t1 a1 loc1 = stream_id t2 a2 loc2
        ∧ stream_id t1 a1 loc1 = .ok (streamIdFmt t1.instant))
    ∧ (∀ (t : PyDateTime), t.tz = none → ∀ (loc : Int),
        stream_id t .noTz loc
          = .error "Unable to create a stream id from naive / timezone-unaware timestamp.") := by
  constructor
  · intro t1 t2 o1 o2 h1 h2 hinst a1 a2 loc1 loc2
    unfold stream_id
    rw [h1, h2, hinst]
    exact ⟨rfl, rfl⟩
  · intro t ht loc
    unfold stream_id
    rw [ht]

/-- Witness for C10: `2022-01-01T08:00+08:00` and `2022-01-01T00:00Z`
denote the same instant (1640995200000000 µs); a naive timestamp errors. -/
theorem claim_C10_stream_id_instant_only_witness :
    (stream_id ⟨1640995200000000, some 28800000000⟩ .noTz 0
        = stream_id ⟨1640995200000000, some 0⟩ .noTz 0
      ∧ stream_id ⟨1640995200000000, some 28800000000⟩ .noTz 0
        = .ok (streamIdFmt 1640995200000000))
    ∧ stream_id ⟨1640995200000000, none⟩ .noTz 0
        = .error "Unable to create a stream id from naive / timezone-unaware timestamp." :=
  ⟨claim_C10_stream_id_instant_only.1 ⟨1640995200000000, some 28800000000⟩
      ⟨1640995200000000, some 0⟩ 28800000000 0 rfl rfl rfl .noTz .noTz 0 0,
    claim_C10_stream_id_instant_only.2 ⟨1640995200000000, none⟩ rfl 0⟩

/-! ## Stream tailing (`pintu/util.py`, `sample_stream`)

`sample_stream` polls the newest stream entry in a `while True` loop; times
are rationals (seconds), one poll result and one `now()` reading per
iteration.  The loop itself is potentially infinite, so it is embedded with
explicit fuel: `(yields, stopped)` where `stopped` records whether the
`break` was taken within the given number of iterations.
-/

/-- Result of one `xrevrange(..., count=1)` poll: no record, or the newest
record's id (record fields are irrelevant to the loop control). -/
inductive Poll where
  | empty
  | entry (id : Nat)
  deriving Repr, DecidableEq

/-- Loop state of `sample_stream`: `last_processed_id` and
`last_fetched_time`. -/
structure SamplerState where
  lastId : Nat
  lastFetched : ℚ
  deriving Repr, DecidableEq

/-- Python truthiness of the `timeout : Optional[timedelta]` argument in
`if timeout and ...`: `None` and `timedelta(0)` are falsy. -/
def timeoutActive : Option ℚ → Bool
  | none => false
  | some t => decide (t ≠ 0)

/-- Outcome of one iteration of the `sample_stream` loop body. -/
inductive StepRes where
  | stop
  | cont (st : SamplerState)
  | yielded (st : SamplerState)
  deriving Repr, DecidableEq

/-- One iteration of the `sample_stream` `while True` body: poll the newest
entry; on no record or a stale id, break if the (truthy) timeout has been
exceeded since the last fetch, else sleep and retry; on a new id, yield and
update the state. -/
def sampleStep (timeout : Option ℚ) (p : Poll) (tNow : ℚ) (st : SamplerState) : StepRes :=
  match p with
  | .empty =>
    if timeoutActive timeout && decide (timeout.getD 0 < tNow - st.lastFetched) then .stop
    else .cont st
  | .entry id =>
    if id = st.lastId then
      if timeoutActive timeout && decide (timeout.getD 0 < tNow - st.lastFetched) then .stop
      else .cont st
    else .yielded ⟨id, tNow⟩

/-- Run the `sample_stream` loop for at most `fuel` iterations starting at
iteration `i`; returns the number of yielded records and whether the loop
broke (terminated) within the fuel. -/
def sampleRun (timeout : Option ℚ) (poll : Nat → Poll) (time : Nat → ℚ) :
    Nat → Nat → SamplerState → Nat × Bool
  | 0, _, _ => (0, false)
  | fuel + 1, i, st =>
    match sampleStep timeout (poll i) (time i) st with
    | .stop => (0, true)
    | .cont st2 => sampleRun timeout poll time fuel (i + 1) st2
    | .yielded st2 =>
      let r := sampleRun timeout poll time fuel (i + 1) st2
      (r.1 + 1, r.2)

theorem sampleStep_stop {t tNow : ℚ} {p : Poll} {st : SamplerState}
    (ht : 0 < t) (hexceed : t < tNow - st.lastFetched)
    (hstale : ∀ id, p = Poll.entry id → id = st.lastId) :
    sampleStep (some t) p tNow st = .stop := by
  have htr : timeoutActive (some t) = true := by
    simp [timeoutActive]
    exact ne_of_gt ht
  cases p with
  | empty => simp [sampleStep, htr, hexceed]
  | entry id =>
    have hid := hstale id rfl
    simp [sampleStep, hid, htr, hexceed]

theorem sampleStep_no_yield (t : ℚ) (tNow : ℚ) (p : Poll) (st : SamplerState)
    (hstale : ∀ id, p = Poll.entry id → id = st.lastId) :
    sampleStep (some t) p tNow st = .stop ∨ sampleStep (some t) p tNow st = .cont st := by
  cases p with
  | empty =>
    rw [sampleStep]
    by_cases hc : (timeoutActive (some t)
        && decide ((some t : Option ℚ).getD 0 < tNow - st.lastFetched)) = true
    · exact Or.inl (if_pos hc)
    · exact Or.inr (if_neg hc)
  | entry id =>
    have hid := hstale id rfl
    rw [sampleStep, if_pos hid]
    by_cases hc : (timeoutActive (some t)
        && decide ((some t : Option ℚ).getD 0 < tNow - st.lastFetched)) = true
    · exact Or.inl (if_pos hc)
    · exact Or.inr (if_neg hc)

/-- C7 (amended): with a configured positive idle timeout, if every poll in
a window returns no record or no new id, and by the end of the window the
time since the last fetch exceeds the timeout, then the sampler terminates
within the window without yielding any further record. -/
theorem claim_C7_sample_stream_idle_timeout (t : ℚ) (ht : 0 < t)
    (poll : Nat → Poll) (time : Nat → ℚ) (n : Nat) (i : Nat) (st : SamplerState)
    (hidle : ∀ k, k ≤ n → ∀ id, poll (i + k) = .entry id → id = st.lastId)
    (hexceed : t < time (i + n) - st.lastFetched) :
    sampleRun (some t) poll time (n + 1) i st = (0, true) := by
  induction n generalizing i with
  | zero =>
    have hstep : sampleStep (some t) (poll i) (time i) st = .stop :=
      sampleStep_stop ht (by simpa using hexceed)
        (fun id hp => hidle 0 (Nat.le_refl 0) id (by simpa using hp))
    rw [sampleRun, hstep]
  | succ m ih =>
    have hnext : sampleRun (some t) poll time (m + 1) (i + 1) st = (0, true) := by
      apply ih
      · intro k hk id hpk
        refine hidle (k + 1) (by omega) id ?_
        have harr : i + 1 + k = i + (k + 1) := by omega
        rw [harr] at hpk
        exact hpk
      · have harr : i + 1 + m = i + (m + 1) := by omega
        rw [harr]
        exact hexceed
    rcases sampleStep_no_yield t (time i) (poll i) st
        (fun id hp => hidle 0 (by omega) id (by simpa using hp)) with hs | hs
    · rw [sampleRun, hs]
    · rw [sampleRun, hs]
      exact hnext

/-- Witness for C7: an always-empty stream polled from time 0 with
`lastFetched = 0` and timeout 1 terminates within 3 iterations. -/
theorem claim_C7_sample_stream_idle_timeout_witness :
    ((0 : ℚ) < 1
      ∧ (∀ k, k ≤ 2 → ∀ id, (fun (_ : Nat) => Poll.empty) (0 + k) = Poll.entry id
          → id = (⟨0, 0⟩ : SamplerState).lastId)
      ∧ (1 : ℚ) < (fun (i : Nat) => (i : ℚ)) (0 + 2) - (⟨0, 0⟩ : SamplerState).lastFetched)
    ∧ sampleRun (some 1) (fun _ => Poll.empty) (fun i => (i : ℚ)) 3 0 ⟨0, 0⟩ = (0, true) :=
  ⟨⟨by norm_num, fun k hk id h => by simp at h, by norm_num⟩,
    claim_C7_sample_stream_idle_timeout 1 (by norm_num) (fun _ => Poll.empty)
      (fun i => (i : ℚ)) 2 0 ⟨0, 0⟩ (fun k hk id h => by simp at h) (by norm_num)⟩

/-- Counterexample for C7 as stated: a configured idle timeout of zero
(`timedelta(0)`, a falsy value in `if timeout and ...`) never triggers the
break — after 10 iterations of an always-empty stream, with the idle time
(up to 9 time units) far exceeding the timeout 0, the loop is still running
(`stopped = false`) instead of having terminated. -/
theorem claim_C7_zero_timeout_not_stopping :
    sampleRun (some 0) (fun _ => Poll.empty) (fun i => (i : ℚ)) 10 0 ⟨0, 0⟩ = (0, false) := by
  decide

/-! ## Frame-rate decimation (`pintu/imaging.py`, `frames_from_video`)

The video source is embedded as the list of `CAP_PROP_POS_MSEC` positions of
the successively grabbed frames (rationals, milliseconds); the function
returns the positions of the retained (yielded) frames.  The frame pixels
and the `start_time` offset added to each yielded timestamp are irrelevant
to the decimation logic.
-/

/-- The `frame_pos_milliseconds > end_pos_milliseconds` break test
(`end_pos` is `+inf` when no duration cap is given). -/
def endOver : Option ℚ → ℚ → Bool
  | none, _ => false
  | some e, p => decide (e < p)

/-- The `while True` grab/decimate loop of `frames_from_video`: stop past
the duration cap, drop frames before the next scheduled sample position,
and advance the schedule by one interval per retained frame. -/
def framesLoop (interval : ℚ) (endPos : Option ℚ) : List ℚ → ℚ → List ℚ
  | [], _ => []
  | p :: rest, next =>
    if endOver endPos p then []
    else if p < next then framesLoop interval endPos rest next
    else p :: framesLoop interval endPos rest (next + interval)

/-- Embedding of `frames_from_video` (`imaging.py`): sample interval is
`1000 / sample_rate` ms when a (truthy) sample rate is given, else 0; the
schedule starts at position 0. -/
def frames_from_video (positions : List ℚ) (sample_rate : Option ℚ)
    (durationMs : Option ℚ) : List ℚ :=
  let interval := match sample_rate with
    | none => 0
    | some r => 1000 / r
  framesLoop interval durationMs positions 0

theorem framesLoop_pos_ge (interval : ℚ) (endPos : Option ℚ) :
    ∀ (ps : List ℚ) (next : ℚ) (k : Nat) (p : ℚ),
      (framesLoop interval endPos ps next)[k]? = some p → next + k * interval ≤ p := by
  intro ps
  induction ps with
  | nil =>
    intro next k p h
    simp [framesLoop] at h
  | cons q rest ih =>
    intro next k p h
    rw [framesLoop] at h
    by_cases he : endOver endPos q
    · rw [if_pos he] at h
      simp at h
    · rw [if_neg he] at h
      by_cases hd : q < next
      · rw [if_pos hd] at h
        exact ih next k p h
      · rw [if_neg hd] at h
        cases k with
        | zero =>
          simp at h
          push_neg at hd
          rw [← h]
          simpa using hd
        | succ m =>
          simp only [List.getElem?_cons_succ] at h
          have := ih (next + interval) m p h
          have hexp : next + interval + m * interval = next + (m + 1) * interval := by ring
          rw [hexp] at this
          calc next + (↑(m + 1)) * interval = next + ((m : ℚ) + 1) * interval := by push_cast; ring
            _ ≤ p := this

/-- C6 (amended): with a positive sample rate, the `k`-th retained frame
(0-indexed) has source position at least `k * (1000 / sample_rate)` ms —
frames arriving before the current schedule position are dropped and each
retained frame advances the schedule by one interval.  (The schedule is
absolute, not relative to the previously retained frame, so two consecutive
retained frames may be closer than one interval after a source gap; see the
counterexample.) -/
theorem claim_C6_frames_from_video_schedule (r : ℚ) (hr : 0 < r)
    (positions : List ℚ) (durationMs : Option ℚ) (k : Nat) (p : ℚ)
    (h : (frames_from_video positions (some r) durationMs)[k]? = some p) :
    (k : ℚ) * (1000 / r) ≤ p := by
  have := framesLoop_pos_ge (1000 / r) durationMs positions 0 k p h
  linarith

/-- Witness for C6 (amended) at positions `[0, 250, 290]`, 10 fps, no
duration cap, `k = 2`. -/
theorem claim_C6_frames_from_video_schedule_witness :
    ((0 : ℚ) < 10
      ∧ (frames_from_video [0, 250, 290] (some 10) none)[2]? = some 290)
    ∧ (2 : ℚ) * (1000 / 10) ≤ 290 :=
  ⟨⟨by norm_num, by simp only [frames_from_video, framesLoop, endOver]; norm_num⟩,
    claim_C6_frames_from_video_schedule 10 (by norm_num) [0, 250, 290] none 2 290
      (by simp only [frames_from_video, framesLoop, endOver]; norm_num)⟩

/-- Counterexample for C6 as stated: with `sample_rate = 10` fps
(interval 100 ms) and source frames at 0, 250 and 290 ms, all three frames
are retained, so the consecutively yielded frames at 250 and 290 ms are only
40 ms apart — closer than `1/sample_rate`; the frame at 290 ms arrives
sooner than 100 ms after the previously retained frame yet is not dropped. -/
theorem claim_C6_burst_after_gap :
    frames_from_video [0, 250, 290] (some 10) none = [0, 250, 290]
    ∧ (290 : ℚ) - 250 < 1000 / 10 := by
  constructor
  · simp only [frames_from_video, framesLoop, endOver]
    norm_num
  · norm_num

/-! ## GPIO shutdown (`pintu/gpio.py`, `graceful_shutdown`)

`_PIN_EVENTS` is a dict from event names to `PinEvent` namedtuples, with
`None` for unconfigured pins.  `graceful_shutdown` iterates its items,
guards only the log line with `if pin_event is not None`, evaluates
`pin_event.pin_number` inside a `try` whose `except` clause catches only
`ValueError` and `TypeError`, and finally calls `GPIO.cleanup()`.  The
platform call `GPIO.remove_event_detect` is abstracted as a function from
pin number to an optional raised exception.
-/

/-- Embedding of the `PinEvent` namedtuple (the handler is not consulted by
`graceful_shutdown`). -/
structure PinEvent where
  pin_number : Nat
  trigger_pinstate : Bool
  debounce_ms : Nat
  deriving Repr, DecidableEq

/-- The Python exception classes that can arise in `graceful_shutdown`:
accessing `pin_number` on `None` raises `AttributeError`; the platform
removal call can raise `ValueError` or `TypeError` (the two classes the
`except` clause catches). -/
inductive PyExc where
  | valueError
  | typeError
  | attributeError
  deriving Repr, DecidableEq

/-- Trace of a completed `graceful_shutdown`: the pins whose removal was
attempted, the pins whose removal raised a caught (logged) exception, and
whether the final `GPIO.cleanup()` ran. -/
structure ShutdownTrace where
  attempted : List Nat
  warned : List Nat
  cleaned : Bool
  deriving Repr, DecidableEq

/-- The `for event_name, pin_event in _PIN_EVENTS.items()` loop of
`graceful_shutdown`: a `None` entry raises `AttributeError` at
`pin_event.pin_number` (uncaught — the `except` clause catches only
`ValueError` and `TypeError`); a caught removal failure is logged and the
loop continues. -/
def shutdownLoop (remove : Nat → Option PyExc) :
    List (String × Option PinEvent) → List Nat → List Nat
      → Except PyExc (List Nat × List Nat)
  | [], att, warn => .ok (att, warn)
  | (_, pe) :: rest, att, warn =>
    match pe with
    | none => .error .attributeError
    | some p =>
      match remove p.pin_number with
      | none => shutdownLoop remove rest (att ++ [p.pin_number]) warn
      | some .valueError =>
        shutdownLoop remove rest (att ++ [p.pin_number]) (warn ++ [p.pin_number])
      | some .typeError =>
        shutdownLoop remove rest (att ++ [p.pin_number]) (warn ++ [p.pin_number])
      | some e => .error e

/-- Embedding of `graceful_shutdown` (`gpio.py`): run the removal loop over
the pin-event table, then `GPIO.cleanup()`; an uncaught exception
propagates, skipping the remaining pins and the cleanup. -/
def graceful_shutdown (table : List (String × Option PinEvent))
    (remove : Nat → Option PyExc) : Except PyExc ShutdownTrace :=
  match shutdownLoop remove table [] [] with
  | .ok (att, warn) => .ok ⟨att, warn, true⟩
  | .error e => .error e

/-- C9 (code divergence, evaluated at the failing input): on a table whose
second entry is unconfigured (`None`), `graceful_shutdown` raises
`AttributeError` at `pin_event.pin_number` instead of skipping the entry —
the removal of the remaining configured pin (15) is never attempted and
`GPIO.cleanup()` never runs, even though every configured removal succeeds. -/
theorem claim_C9_shutdown_aborts_on_unconfigured :
    graceful_shutdown
      [("doorbell pressed", some ⟨11, true, 2000⟩),
       ("door opened", none),
       ("door unlocked", some ⟨15, true, 500⟩)]
      (fun _ => none)
      = .error .attributeError := rfl

/-! ## Layer extraction (`pintu/imaging.py`, `FrameBuffer.median` and
`FrameBuffer.extract_layers`)

Image pixel data (`numpy` uint8 arrays of shape height × width × channels)
is embedded as nested lists of `Nat`; the buffered frames are the `.data`
arrays of the frames in the buffer.  All `numpy`/`cv2` operations used by
`extract_layers` act elementwise.
-/

/-- A height × width × channels pixel cube. -/
abbrev Cube (α : Type) := List (List (List α))

/-- Element access with defaults (used to state pointwise facts). -/
def cubeGet {α : Type} (m : Cube α) (i j c : Nat) (d : α) : α :=
  ((m.getD i []).getD j []).getD c d

/-- `m` is a well-formed `H × W × C` array. -/
def HasShape {α : Type} (m : Cube α) (H W C : Nat) : Prop :=
  m.length = H ∧ ∀ i, i < H →
    ((m.getD i []).length = W ∧ ∀ j, j < W → ((m.getD i []).getD j []).length = C)

instance hasShapeDecidable {α : Type} (m : Cube α) (H W C : Nat) :
    Decidable (HasShape m H W C) := by
  unfold HasShape
  infer_instance

/-- `numpy.median` of a list of byte values, truncated back to `uint8` by
the `numpy.asarray(..., dtype=numpy.uint8)` cast in `FrameBuffer.median`:
the middle element of the sorted values (odd count), or the floor of the
mean of the two middle elements (even count). -/
def medNat (l : List Nat) : Nat :=
  let s := l.insertionSort (· ≤ ·)
  if l.length % 2 = 1 then s.getD (l.length / 2) 0
  else (s.getD (l.length / 2 - 1) 0 + s.getD (l.length / 2) 0) / 2

/-- Embedding of `FrameBuffer.median`: the channel-wise per-pixel median
across all buffered frames (`numpy.median(..., axis=0)` over the stacked
frame data). -/
def medianMat (buf : List (Cube Nat)) : Cube Nat :=
  match buf with
  | [] => []
  | f0 :: _ =>
    f0.mapIdx fun i row => row.mapIdx fun j px => px.mapIdx fun c _ =>
      medNat (buf.map fun m => cubeGet m i j c 0)

/-- Elementwise `cv2.absdiff`. -/
def absdiffMat (a b : Cube Nat) : Cube Nat :=
  List.zipWith (List.zipWith (List.zipWith
    (fun (x y : Nat) => ((x : Int) - (y : Int)).natAbs))) a b

/-- Elementwise `diff > diff_threshold` (`numpy` comparison of a uint8
array against a Python int, which may be negative). -/
def gtMaskMat (m : Cube Nat) (t : Int) : Cube Bool :=
  m.map (List.map (List.map (fun (v : Nat) => decide (t < (v : Int)))))

/-- `numpy.full_like(image.data, GREY)` followed by
`foreground_data[mask] = image.data[mask]`: keep the image value where the
mask holds, else the neutral grey fill 128. -/
def maskedMergeMat (img : Cube Nat) (mask : Cube Bool) : Cube Nat :=
  List.zipWith (List.zipWith (List.zipWith
    (fun x b => if b then x else 128))) img mask

/-- Embedding of the `ImageLayers` result (pixel data only; the three
images are tagged `background` / `foreground` / `other` kinds). -/
structure ImageLayersM where
  background : Cube Nat
  foreground : Cube Nat
  mask : Cube Bool
  deriving Repr, DecidableEq

/-- Embedding of `FrameBuffer.extract_layers` (`imaging.py`). -/
def extract_layers (buf : List (Cube Nat)) (img : Cube Nat) (t : Int) :
    ImageLayersM :=
  let background := medianMat buf
  let diff := absdiffMat img background
  let mask := gtMaskMat diff t
  let foreground := maskedMergeMat img mask
  ⟨background, foreground, mask⟩

theorem getD_eq_getElem_of_lt {α : Type} (l : List α) (i : Nat) (d : α)
    (h : i < l.length) : l.getD i d = l[i] := by
  rw [List.getD_eq_getElem?_getD, List.getElem?_eq_getElem h]
  rfl

theorem getD_mem_of_lt {α : Type} (l : List α) (i : Nat) (d : α)
    (h : i < l.length) : l.getD i d ∈ l := by
  rw [getD_eq_getElem_of_lt l i d h]
  exact List.getElem_mem h

theorem getD_map_of_lt {α β : Type} (f : α → β) (l : List α) (i : Nat)
    (d : α) (d' : β) (h : i < l.length) :
    (l.map f).getD i d' = f (l.getD i d) := by
  rw [getD_eq_getElem_of_lt _ i d' (by simpa using h),
    getD_eq_getElem_of_lt l i d h]
  simp

theorem getD_mapIdx_of_lt {α β : Type} (f : Nat → α → β) (l : List α)
    (i : Nat) (d : α) (d' : β) (h : i < l.length) :
    (l.mapIdx f).getD i d' = f i (l.getD i d) := by
  rw [getD_eq_getElem_of_lt _ i d' (by simpa using h),
    getD_eq_getElem_of_lt l i d h]
  simp [List.getElem_mapIdx]

theorem getD_zipWith_of_lt {α β γ : Type} (f : α → β → γ) (a : List α)
    (b : List β) (i : Nat) (da : α) (db : β) (dg : γ)
    (ha : i < a.length) (hb : i < b.length) :
    (List.zipWith f a b).getD i dg = f (a.getD i da) (b.getD i db) := by
  rw [getD_eq_getElem_of_lt _ i dg (by simp [List.length_zipWith]; omega),
    getD_eq_getElem_of_lt a i da ha, getD_eq_getElem_of_lt b i db hb]
  simp

theorem hasShape_map {α β : Type} (f : α → β) (m : Cube α) (H W C : Nat)
    (h : HasShape m H W C) :
    HasShape (m.map (List.map (List.map f))) H W C := by
  obtain ⟨hl, hrows⟩ := h
  refine ⟨by simp [hl], ?_⟩
  intro i hi
  obtain ⟨hw, hpx⟩ := hrows i hi
  rw [getD_map_of_lt _ m i [] [] (by rw [hl]; exact hi)]
  refine ⟨by simp only [List.length_map]; exact hw, ?_⟩
  intro j hj
  rw [getD_map_of_lt _ _ j [] [] (by rw [hw]; exact hj)]
  simp only [List.length_map]
  exact hpx j hj

theorem hasShape_zipWith {α β γ : Type} (f : α → β → γ) (a : Cube α) (b : Cube β)
    (H W C : Nat) (ha : HasShape a H W C) (hb : HasShape b H W C) :
    HasShape (List.zipWith (List.zipWith (List.zipWith f)) a b) H W C := by
  obtain ⟨hal, harows⟩ := ha
  obtain ⟨hbl, hbrows⟩ := hb
  refine ⟨by simp [List.length_zipWith, hal, hbl], ?_⟩
  intro i hi
  obtain ⟨haw, hapx⟩ := harows i hi
  obtain ⟨hbw, hbpx⟩ := hbrows i hi
  rw [getD_zipWith_of_lt _ a b i [] [] [] (by rw [hal]; exact hi) (by rw [hbl]; exact hi)]
  refine ⟨by rw [List.length_zipWith, haw, hbw]; exact Nat.min_self W, ?_⟩
  intro j hj
  rw [getD_zipWith_of_lt _ _ _ j [] [] [] (by rw [haw]; exact hj) (by rw [hbw]; exact hj)]
  rw [List.length_zipWith, hapx j hj, hbpx j hj]
  exact Nat.min_self C

theorem hasShape_medianMat (f0 : Cube Nat) (rest : List (Cube Nat)) (H W C : Nat)
    (h0 : HasShape f0 H W C) : HasShape (medianMat (f0 :: rest)) H W C := by
  obtain ⟨hl, hrows⟩ := h0
  simp only [medianMat]
  refine ⟨by simp [hl], ?_⟩
  intro i hi
  obtain ⟨hw, hpx⟩ := hrows i hi
  rw [getD_mapIdx_of_lt _ f0 i [] [] (by rw [hl]; exact hi)]
  refine ⟨by simp only [List.length_mapIdx]; exact hw, ?_⟩
  intro j hj
  rw [getD_mapIdx_of_lt _ _ j [] [] (by rw [hw]; exact hj)]
  simp only [List.length_mapIdx]
  exact hpx j hj

theorem cubeGet_map {α β : Type} (f : α → β) (m : Cube α) (H W C : Nat)
    (h : HasShape m H W C) (i j c : Nat) (hi : i < H) (hj : j < W) (hc : c < C)
    (da : α) (db : β) :
    cubeGet (m.map (List.map (List.map f))) i j c db = f (cubeGet m i j c da) := by
  obtain ⟨hl, hrows⟩ := h
  obtain ⟨hw, hpx⟩ := hrows i hi
  unfold cubeGet
  rw [getD_map_of_lt _ m i [] [] (by rw [hl]; exact hi),
    getD_map_of_lt _ _ j [] [] (by rw [hw]; exact hj),
    getD_map_of_lt _ _ c da db (by rw [hpx j hj]; exact hc)]

theorem cubeGet_zipWith {α β γ : Type} (f : α → β → γ) (a : Cube α) (b : Cube β)
    (H W C : Nat) (ha : HasShape a H W C) (hb : HasShape b H W C)
    (i j c : Nat) (hi : i < H) (hj : j < W) (hc : c < C)
    (da : α) (db : β) (dg : γ) :
    cubeGet (List.zipWith (List.zipWith (List.zipWith f)) a b) i j c dg
      = f (cubeGet a i j c da) (cubeGet b i j c db) := by
  obtain ⟨hal, harows⟩ := ha
  obtain ⟨hbl, hbrows⟩ := hb
  obtain ⟨haw, hapx⟩ := harows i hi
  obtain ⟨hbw, hbpx⟩ := hbrows i hi
  unfold cubeGet
  rw [getD_zipWith_of_lt _ a b i [] [] [] (by rw [hal]; exact hi) (by rw [hbl]; exact hi),
    getD_zipWith_of_lt _ _ _ j [] [] [] (by rw [haw]; exact hj) (by rw [hbw]; exact hj),
    getD_zipWith_of_lt _ _ _ c da db dg (by rw [hapx j hj]; exact hc)
      (by rw [hbpx j hj]; exact hc)]

theorem cubeGet_medianMat (f0 : Cube Nat) (rest : List (Cube Nat)) (H W C : Nat)
    (h0 : HasShape f0 H W C) (i j c : Nat) (hi : i < H) (hj : j < W) (hc : c < C) :
    cubeGet (medianMat (f0 :: rest)) i j c 0
      = medNat ((f0 :: rest).map fun m => cubeGet m i j c 0) := by
  obtain ⟨hl, hrows⟩ := h0
  obtain ⟨hw, hpx⟩ := hrows i hi
  simp only [medianMat]
  unfold cubeGet
  rw [getD_mapIdx_of_lt _ f0 i [] [] (by rw [hl]; exact hi),
    getD_mapIdx_of_lt _ _ j [] [] (by rw [hw]; exact hj),
    getD_mapIdx_of_lt _ _ c 0 0 (by rw [hpx j hj]; exact hc)]

theorem medNat_le (l : List Nat) (B : Nat) (hb : ∀ v ∈ l, v ≤ B) : medNat l ≤ B := by
  have hs : ∀ v ∈ l.insertionSort (· ≤ ·), v ≤ B := by
    intro v hv
    exact hb v ((List.perm_insertionSort (· ≤ ·) l).mem_iff.mp hv)
  have h1 : ∀ i, (l.insertionSort (· ≤ ·)).getD i 0 ≤ B := by
    intro i
    rw [List.getD_eq_getElem?_getD]
    cases hg : (l.insertionSort (· ≤ ·))[i]? with
    | none => simp
    | some v =>
      simp only [Option.getD_some]
      obtain ⟨hlt, hv⟩ := List.getElem?_eq_some.mp hg
      rw [← hv]
      exact hs _ (List.getElem_mem hlt)
  simp only [medNat]
  split
  · exact h1 _
  · have ha := h1 (l.length / 2 - 1)
    have hbb := h1 (l.length / 2)
    omega

/-- C4: with a non-empty buffer of `H × W × C` byte frames and a matching
image, `extract_layers` produces: a background equal to the per-pixel
(per-channel) median of the buffered frames; a mask holding at a position
exactly when the absolute difference between the image and that median
exceeds `diff_threshold`; a foreground holding the image value at masked
positions and the flat neutral-grey fill 128 elsewhere; and, in particular,
a mask holding nowhere when `diff_threshold ≥ 255` and everywhere when
`diff_threshold = -1`. -/
theorem claim_C4_extract_layers_pointwise (buf : List (Cube Nat)) (img : Cube Nat)
    (t : Int) (H W C : Nat)
    (hbuf : buf ≠ [])
    (hbs : ∀ m ∈ buf, HasShape m H W C)
    (himg : HasShape img H W C)
    (hbufb : ∀ m ∈ buf, ∀ i, i < H → ∀ j, j < W → ∀ c, c < C → cubeGet m i j c 0 ≤ 255)
    (himgb : ∀ i, i < H → ∀ j, j < W → ∀ c, c < C → cubeGet img i j c 0 ≤ 255) :
    ∀ i, i < H → ∀ j, j < W → ∀ c, c < C →
      (cubeGet (extract_layers buf img t).background i j c 0
          = medNat (buf.map fun m => cubeGet m i j c 0))
      ∧ ((cubeGet (extract_layers buf img t).mask i j c false = true)
          ↔ t < ((((cubeGet img i j c 0 : Nat) : Int)
              - (medNat (buf.map fun m => cubeGet m i j c 0) : Int)).natAbs : Int))
      ∧ (cubeGet (extract_layers buf img t).foreground i j c 0
          = if t < ((((cubeGet img i j c 0 : Nat) : Int)
              - (medNat (buf.map fun m => cubeGet m i j c 0) : Int)).natAbs : Int)
            then cubeGet img i j c 0 else 128)
      ∧ ((255 : Int) ≤ t → cubeGet (extract_layers buf img t).mask i j c false = false)
      ∧ (t = -1 → cubeGet (extract_layers buf img t).mask i j c false = true) := by
  obtain ⟨f0, rest, rfl⟩ := List.exists_cons_of_ne_nil hbuf
  have h0 : HasShape f0 H W C := hbs f0 (by simp)
  have hbg : HasShape (medianMat (f0 :: rest)) H W C := hasShape_medianMat f0 rest H W C h0
  have hdiff : HasShape (absdiffMat img (medianMat (f0 :: rest))) H W C :=
    hasShape_zipWith _ img _ H W C himg hbg
  have hmask : HasShape (gtMaskMat (absdiffMat img (medianMat (f0 :: rest))) t) H W C :=
    hasShape_map _ _ H W C hdiff
  intro i hi j hj c hc
  have hbgpt : cubeGet (medianMat (f0 :: rest)) i j c 0
      = medNat ((f0 :: rest).map fun m => cubeGet m i j c 0) :=
    cubeGet_medianMat f0 rest H W C h0 i j c hi hj hc
  have hdiffpt : cubeGet (absdiffMat img (medianMat (f0 :: rest))) i j c 0
      = (((cubeGet img i j c 0 : Nat) : Int)
          - (medNat ((f0 :: rest).map fun m => cubeGet m i j c 0) : Int)).natAbs := by
    have h2 := cubeGet_zipWith (fun (x y : Nat) => ((x : Int) - (y : Int)).natAbs)
      img (medianMat (f0 :: rest)) H W C himg hbg i j c hi hj hc 0 0 0
    rw [hbgpt] at h2
    exact h2
  have hmaskpt : cubeGet (extract_layers (f0 :: rest) img t).mask i j c false
      = decide (t < ((((cubeGet img i j c 0 : Nat) : Int)
          - (medNat ((f0 :: rest).map fun m => cubeGet m i j c 0) : Int)).natAbs : Int)) := by
    have h2 := cubeGet_map (fun (v : Nat) => decide (t < (v : Int)))
      (absdiffMat img (medianMat (f0 :: rest))) H W C hdiff i j c hi hj hc 0 false
    rw [hdiffpt] at h2
    exact h2
  have hmed : medNat ((f0 :: rest).map fun m => cubeGet m i j c 0) ≤ 255 := by
    apply medNat_le
    intro v hv
    simp only [List.mem_map] at hv
    obtain ⟨m, hm, rfl⟩ := hv
    exact hbufb m hm i hi j hj c hc
  refine ⟨hbgpt, ?_, ?_, ?_, ?_⟩
  · rw [hmaskpt]
    simp
  · show cubeGet (maskedMergeMat img
        (gtMaskMat (absdiffMat img (medianMat (f0 :: rest))) t)) i j c 0 = _
    have h2 := cubeGet_zipWith (fun (x : Nat) (b : Bool) => if b then x else 128)
      img (gtMaskMat (absdiffMat img (medianMat (f0 :: rest))) t) H W C himg hmask
      i j c hi hj hc 0 false 0
    rw [show cubeGet (maskedMergeMat img
        (gtMaskMat (absdiffMat img (medianMat (f0 :: rest))) t)) i j c 0
      = (fun (x : Nat) (b : Bool) => if b then x else 128) (cubeGet img i j c 0)
        (cubeGet (gtMaskMat (absdiffMat img (medianMat (f0 :: rest))) t) i j c false)
      from h2]
    have hmp : cubeGet (gtMaskMat (absdiffMat img (medianMat (f0 :: rest))) t) i j c false
        = decide (t < ((((cubeGet img i j c 0 : Nat) : Int)
            - (medNat ((f0 :: rest).map fun m => cubeGet m i j c 0) : Int)).natAbs : Int)) :=
      hmaskpt
    rw [hmp]
    by_cases hcond : t < ((((cubeGet img i j c 0 : Nat) : Int)
        - (medNat ((f0 :: rest).map fun m => cubeGet m i j c 0) : Int)).natAbs : Int)
    · simp [hcond]
    · simp [hcond]
  · intro h255
    rw [hmaskpt]
    have himgv := himgb i hi j hj c hc
    simp only [decide_eq_false_iff_not]
    omega
  · intro hneg
    rw [hmaskpt]
    subst hneg
    simp only [decide_eq_true_eq]
    omega

/-- Witness for C4: a one-row, two-pixel, one-channel example
(`buf = [[[[0],[10]]]]`, `img = [[[5],[200]]]`, threshold 42). -/
theorem claim_C4_extract_layers_pointwise_witness :
    (([[[[0], [10]]]] : List (Cube Nat)) ≠ []
      ∧ (∀ m ∈ ([[[[0], [10]]]] : List (Cube Nat)), HasShape m 1 2 1)
      ∧ HasShape ([[[5], [200]]] : Cube Nat) 1 2 1
      ∧ (∀ m ∈ ([[[[0], [10]]]] : List (Cube Nat)), ∀ i, i < 1 → ∀ j, j < 2 → ∀ c, c < 1
          → cubeGet m i j c 0 ≤ 255)
      ∧ (∀ i, i < 1 → ∀ j, j < 2 → ∀ c, c < 1 → cubeGet ([[[5], [200]]] : Cube Nat) i j c 0 ≤ 255))
    ∧ (∀ i, i < 1 → ∀ j, j < 2 → ∀ c, c < 1 →
      (cubeGet (extract_layers [[[[0], [10]]]] [[[5], [200]]] 42).background i j c 0
          = medNat (([[[[0], [10]]]] : List (Cube Nat)).map fun m => cubeGet m i j c 0))
      ∧ ((cubeGet (extract_layers [[[[0], [10]]]] [[[5], [200]]] 42).mask i j c false = true)
          ↔ (42 : Int) < ((((cubeGet ([[[5], [200]]] : Cube Nat) i j c 0 : Nat) : Int)
              - (medNat (([[[[0], [10]]]] : List (Cube Nat)).map
                  fun m => cubeGet m i j c 0) : Int)).natAbs : Int))
      ∧ (cubeGet (extract_layers [[[[0], [10]]]] [[[5], [200]]] 42).foreground i j c 0
          = if (42 : Int) < ((((cubeGet ([[[5], [200]]] : Cube Nat) i j c 0 : Nat) : Int)
              - (medNat (([[[[0], [10]]]] : List (Cube Nat)).map
                  fun m => cubeGet m i j c 0) : Int)).natAbs : Int)
            then cubeGet ([[[5], [200]]] : Cube Nat) i j c 0 else 128)
      ∧ ((255 : Int) ≤ 42
          → cubeGet (extract_layers [[[[0], [10]]]] [[[5], [200]]] 42).mask i j c false = false)
      ∧ ((42 : Int) = -1
          → cubeGet (extract_layers [[[[0], [10]]]] [[[5], [200]]] 42).mask i j c false = true)) :=
  ⟨⟨by decide, by decide, by decide, by decide, by decide⟩,
    claim_C4_extract_layers_pointwise [[[[0], [10]]]] [[[5], [200]]] 42 1 2 1
      (by decide) (by decide) (by decide) (by decide) (by decide)⟩

/-! ## Recording coordinator (`pintu/record.py`, `_record_on_demand_loop`)

Timestamps are rationals (seconds since the Unix epoch).  The capture
stream is embedded as the ascending list of its frame timestamps; fetching
and decoding the frame blobs is assumed to succeed (the healthy-stream case
of the scenario).  The interaction with the request queue and the shared
record-until key is captured by the value popped by `blpop` and by the list
of successive values returned by the `getset` calls on the record-until key
(`getset` atomically resets the key to `UTC_DATETIME_MIN`, so a value is
read at most once).
-/

/-- `datetime.datetime.min` at UTC (`pintu.util.UTC_DATETIME_MIN`),
as seconds since the Unix epoch (0001-01-01T00:00:00Z). -/
def dtMin : ℚ := -62135596800

/-- A record appended to the per-camera `recording` stream (the fields the
claim is about; `camera` and `file` are constant strings in the scenario). -/
structure RecRecord where
  finished : Bool
  start : ℚ
  endT : ℚ
  deriving Repr, DecidableEq

/-- Coordinator state carried across outer loop iterations:
`start_timestamp`, `end_timestamp`, `last_recorded_frame_timestamp`, and the
cumulative number of `cv2.VideoWriter` output files opened. -/
structure CoordState where
  start : ℚ
  endT : ℚ
  lastRec : ℚ
  filesOpened : Nat
  deriving Repr, DecidableEq

/-- Modelled from the spec: `pintu.util.slice_stream` is called by
`_record_on_demand_loop` and `get_recordings` but is not defined in the
reviewed sources; per spec §4.1 (`range` semantics) and §9 it is an
inclusive scan between the two timestamps, returned oldest-first. -/
def slice_stream (frames : List ℚ) (start_time end_time : ℚ) : List ℚ :=
  frames.filter fun ts => decide (start_time ≤ ts) && decide (ts ≤ end_time)

/-- The inner `while last_recorded < end` loop of `_record_on_demand_loop`:
each pass writes every frame of `slice_stream(max(start, last_recorded),
end)` — opening the video writer on the first frame actually written and
advancing `last_recorded` to the last written frame's timestamp — and then
re-reads the shared record-until key (`getset`); `reads` lists the values
those re-reads return.  Returns `(last_recorded, end, writer_open,
files_opened)` when the loop exits, or `none` if `reads` is exhausted while
the loop still runs. -/
def writeLoop (frames : List ℚ) (start : ℚ) :
    List ℚ → ℚ → ℚ → Bool → Nat → Option (ℚ × ℚ × Bool × Nat)
  | [], lastRec, endT, writer, opened =>
    if lastRec < endT then none else some (lastRec, endT, writer, opened)
  | r :: rest, lastRec, endT, writer, opened =>
    if lastRec < endT then
      writeLoop frames start rest
        ((slice_stream frames (max start lastRec) endT).getLast?.getD lastRec) r
        (writer || decide (slice_stream frames (max start lastRec) endT ≠ []))
        (if decide (slice_stream frames (max start lastRec) endT ≠ []) && !writer
          then opened + 1 else opened)
    else some (lastRec, endT, writer, opened)

/-- One outer iteration of `_record_on_demand_loop`: `blpop` a start time
(`startPopped`), `getset` the record-until key (`firstRead`), take running
maxima of start and end against the in-progress state, append a
`finished=0` record when the merged start exceeds the last recorded frame
timestamp, run the inner write loop, and append a `finished=1` record (with
the last recorded frame timestamp as end) when a writer was opened. -/
def runIteration (frames : List ℚ) (st : CoordState) (startPopped firstRead : ℚ)
    (reads : List ℚ) : Option (CoordState × List RecRecord) :=
  let start := max st.start startPopped
  let endT := max st.endT firstRead
  let startRecs : List RecRecord :=
    if st.lastRec < start then [⟨false, start, endT⟩] else []
  match writeLoop frames start reads st.lastRec endT false st.filesOpened with
  | none => none
  | some (lastRec2, endT2, writer, opened2) =>
    some (⟨start, endT2, lastRec2, opened2⟩,
      startRecs ++ (if writer then [⟨true, start, lastRec2⟩] else []))

/-- The C1 scenario: the coordinator starts idle, pops the first request's
start `T0` with record-until `T0+5`; the second request (start `T0+2`, end
`T0+8`) arrives while the first recording is being written, so the `getset`
re-check after the first write pass returns `T0+8` and the next one the
reset value `UTC_DATETIME_MIN`; the second queue entry `T0+2` is then
popped with the record-until key already reset. -/
def runScenario (frames : List ℚ) (T0 : ℚ) : Option (CoordState × List RecRecord) :=
  (runIteration frames ⟨dtMin, dtMin, dtMin, 0⟩ T0 (T0 + 5) [T0 + 8, dtMin]).bind fun p1 =>
    (runIteration frames p1.1 (T0 + 2) dtMin []).bind fun p2 =>
      some (p2.1, p1.2 ++ p2.2)

theorem getLast?_cons_all_eq {α : Type} (a : α) (L : List α) (h : ∀ y ∈ L, y = a) :
    (a :: L).getLast? = some a := by
  induction L generalizing a with
  | nil => rfl
  | cons b M ih =>
    rw [List.getLast?_cons_cons]
    have hb : b = a := h b (by simp)
    subst hb
    exact ih b (fun y hy => h y (by simp [hy]))

theorem mem_of_getLast?_eq_some {α : Type} {l : List α} {a : α}
    (h : l.getLast? = some a) : a ∈ l := by
  induction l with
  | nil => simp at h
  | cons b L ih =>
    cases L with
    | nil =>
      simp only [List.getLast?_singleton, Option.some.injEq] at h
      simp [h]
    | cons c M =>
      rw [List.getLast?_cons_cons] at h
      exact List.mem_cons_of_mem b (ih h)

/-- In a sorted stream containing a frame at exactly the slice end, the last
frame of an inclusive slice ending there is that frame. -/
theorem getLast_slice_stream (frames : List ℚ) (hs : List.Sorted (· ≤ ·) frames)
    (lo x : ℚ) (hx : x ∈ frames) (hlo : lo ≤ x) :
    (slice_stream frames lo x).getLast? = some x := by
  simp only [slice_stream]
  induction frames with
  | nil => simp at hx
  | cons a rest ih =>
    rw [List.sorted_cons] at hs
    obtain ⟨hall, hrest⟩ := hs
    rw [List.filter_cons]
    rcases List.mem_cons.mp hx with rfl | hxr
    · rw [if_pos (by simp [hlo])]
      apply getLast?_cons_all_eq
      intro y hy
      have hyr := List.mem_filter.mp hy
      have h1 : x ≤ y := hall y hyr.1
      have h2 : y ≤ x := by
        have hcond := hyr.2
        simp at hcond
        exact hcond.2
      linarith
    · have hglr := ih hrest hxr
      by_cases hpa : (decide (lo ≤ a) && decide (a ≤ x)) = true
      · rw [if_pos hpa]
        cases hfr : List.filter (fun ts => decide (lo ≤ ts) && decide (ts ≤ x)) rest with
        | nil => rw [hfr] at hglr; simp at hglr
        | cons b bs =>
          rw [hfr] at hglr
          rw [List.getLast?_cons_cons, hglr]
      · rw [if_neg hpa]
        exact hglr

/-- C1: in the overlapping-requests scenario — request (T0, T0+5) enqueued,
request (T0+2, T0+8) arriving before the first recording completes — with a
sorted capture stream that has at least one frame in [T0, T0+5] and a frame
at exactly T0+8, the coordinator merges the two intervals by running
maxima, emits exactly one `finished=1` record spanning T0 through T0+8 (the
only other record being the initial `finished=0` record), and opens exactly
one output file. -/
theorem claim_C1_record_merge (frames : List ℚ) (T0 : ℚ)
    (hT0 : dtMin < T0)
    (hsorted : List.Sorted (· ≤ ·) frames)
    (hmid : ∃ f ∈ frames, T0 ≤ f ∧ f ≤ T0 + 5)
    (hend : (T0 + 8) ∈ frames) :
    ∃ st : CoordState,
      runScenario frames T0
        = some (st, [⟨false, T0, T0 + 5⟩, ⟨true, T0, T0 + 8⟩])
      ∧ st.filesOpened = 1 ∧ st.lastRec = T0 + 8 := by
  obtain ⟨f, hf, hf1, hf2⟩ := hmid
  -- the first slice is non-empty
  have hsl1ne : slice_stream frames T0 (T0 + 5) ≠ [] := by
    intro hempty
    have : f ∈ slice_stream frames T0 (T0 + 5) := by
      rw [slice_stream, List.mem_filter]
      exact ⟨hf, by simp [hf1, hf2]⟩
    rw [hempty] at this
    simp at this
  -- the last frame written by the first pass
  obtain ⟨m1, hgl1⟩ : ∃ m1, (slice_stream frames T0 (T0 + 5)).getLast? = some m1 := by
    cases hg : (slice_stream frames T0 (T0 + 5)).getLast? with
    | none => exact absurd (List.getLast?_eq_none_iff.mp hg) hsl1ne
    | some m => exact ⟨m, rfl⟩
  have hm1mem := List.mem_filter.mp (mem_of_getLast?_eq_some hgl1)
  have hm1lo : T0 ≤ m1 := by
    have := hm1mem.2
    simp at this
    exact this.1
  have hm1hi : m1 ≤ T0 + 5 := by
    have := hm1mem.2
    simp at this
    exact this.2
  -- the second pass ends exactly at T0 + 8
  have hgl2 : (slice_stream frames m1 (T0 + 8)).getLast? = some (T0 + 8) :=
    getLast_slice_stream frames hsorted m1 (T0 + 8) hend (by linarith)
  have hsl2ne : slice_stream frames m1 (T0 + 8) ≠ [] := by
    intro hempty
    rw [hempty] at hgl2
    simp at hgl2
  -- evaluate the three write-loop passes of the first iteration
  have hmax0 : max T0 dtMin = T0 := max_eq_left (le_of_lt hT0)
  have hmax1 : max T0 m1 = m1 := max_eq_right hm1lo
  have hstep1 : writeLoop frames T0 [T0 + 8, dtMin] dtMin (T0 + 5) false 0
      = writeLoop frames T0 [dtMin] m1 (T0 + 8) true 1 := by
    conv_lhs => rw [writeLoop]
    rw [if_pos (show dtMin < T0 + 5 by linarith)]
    rw [hmax0, hgl1, decide_eq_true hsl1ne]
    norm_num
  have hstep2 : writeLoop frames T0 [dtMin] m1 (T0 + 8) true 1
      = writeLoop frames T0 [] (T0 + 8) dtMin true 1 := by
    conv_lhs => rw [writeLoop]
    rw [if_pos (show m1 < T0 + 8 by linarith)]
    rw [hmax1, hgl2, decide_eq_true hsl2ne]
    norm_num
  have hstep3 : writeLoop frames T0 [] (T0 + 8) dtMin true 1
      = some (T0 + 8, dtMin, true, 1) := by
    conv_lhs => rw [writeLoop]
    rw [if_neg (show ¬(T0 + 8 < dtMin) by intro hcon; linarith)]
  -- first outer iteration
  have hit1 : runIteration frames ⟨dtMin, dtMin, dtMin, 0⟩ T0 (T0 + 5) [T0 + 8, dtMin]
      = some (⟨T0, dtMin, T0 + 8, 1⟩, [⟨false, T0, T0 + 5⟩, ⟨true, T0, T0 + 8⟩]) := by
    simp only [runIteration]
    rw [max_eq_right (le_of_lt hT0),
      max_eq_right (show dtMin ≤ T0 + 5 by linarith)]
    rw [hstep1, hstep2, hstep3]
    rw [if_pos hT0]
    rfl
  -- second outer iteration: fully subsumed request, no new file
  have hw2 : writeLoop frames (T0 + 2) [] (T0 + 8) dtMin false 1
      = some (T0 + 8, dtMin, false, 1) := by
    conv_lhs => rw [writeLoop]
    rw [if_neg (show ¬(T0 + 8 < dtMin) by intro hcon; linarith)]
  have hit2 : runIteration frames ⟨T0, dtMin, T0 + 8, 1⟩ (T0 + 2) dtMin []
      = some (⟨T0 + 2, dtMin, T0 + 8, 1⟩, []) := by
    simp only [runIteration]
    rw [max_eq_right (show T0 ≤ T0 + 2 by linarith), max_self]
    rw [hw2]
    rw [if_neg (show ¬(T0 + 8 < T0 + 2) by intro hcon; linarith)]
    rfl
  refine ⟨⟨T0 + 2, dtMin, T0 + 8, 1⟩, ?_, rfl, rfl⟩
  rw [runScenario, hit1, Option.some_bind]
  rw [show (((⟨T0, dtMin, T0 + 8, 1⟩ : CoordState),
      ([⟨false, T0, T0 + 5⟩, ⟨true, T0, T0 + 8⟩] : List RecRecord)).1) = ⟨T0, dtMin, T0 + 8, 1⟩
    from rfl, hit2, Option.some_bind]
  simp

/-- Witness for C1 at `T0 = 0` with frames at 0, 3, 6 and 8 seconds. -/
theorem claim_C1_record_merge_witness :
    (dtMin < (0 : ℚ)
      ∧ List.Sorted (· ≤ ·) ([0, 3, 6, 8] : List ℚ)
      ∧ (∃ f ∈ ([0, 3, 6, 8] : List ℚ), (0 : ℚ) ≤ f ∧ f ≤ 0 + 5)
      ∧ ((0 : ℚ) + 8) ∈ ([0, 3, 6, 8] : List ℚ))
    ∧ ∃ st : CoordState,
      runScenario [0, 3, 6, 8] 0
        = some (st, [⟨false, 0, 0 + 5⟩, ⟨true, 0, 0 + 8⟩])
      ∧ st.filesOpened = 1 ∧ st.lastRec = 0 + 8 :=
  ⟨⟨by norm_num [dtMin], by norm_num, ⟨3, by norm_num⟩, by norm_num⟩,
    claim_C1_record_merge [0, 3, 6, 8] 0 (by norm_num [dtMin]) (by norm_num)
      ⟨3, by norm_num⟩ (by norm_num)⟩

/-! ## Image encoding (`pintu/imaging.py`, `Image.encode` / `Image.decode`)

Byte strings are embedded as `List Nat` (byte values).  The external
`cv2.imencode` / `cv2.imdecode` pixel codec is abstracted as a `Codec`
record, and `datetime.isoformat` / `pintu.util.parse_timestamp` as a
`TimeCodec` over an abstract timestamp type.  `str.encode`/`bytes.decode`
are modelled on the ASCII subset (`bytes.decode` of a non-ASCII byte is
treated as a decode failure; `UnicodeDecodeError` is a `ValueError`, which
the `except` clause of `Image.decode` catches, so both land on the same
error path).  Metadata values are modelled as strings — the kind tag and
the isoformat timestamp are strings in the source, and other scalars only
change the JSON token shape, not the trailer mechanics.
-/

/-- The uncompressed pixel buffer of a frame (opaque to encode/decode). -/
abbrev PixelData := List Nat

/-- Abstraction of the `cv2.imencode`/`cv2.imdecode` pair for the chosen
image format; `dec` returns `none` when `imdecode` cannot decode. -/
structure Codec where
  enc : PixelData → List Nat
  dec : List Nat → Option PixelData

/-- Abstraction of `datetime.isoformat` and the `fromisoformat` branch of
`pintu.util.parse_timestamp` over an abstract timestamp type. -/
structure TimeCodec (Ts : Type) where
  fmt : Ts → String
  parse : String → Option Ts

/-- Embedding of `ImageKind` (`imaging.py`). -/
inductive ImageKind where
  | input
  | background
  | foreground
  | detections
  | redacted_input
  | redacted_foreground
  | other
  deriving Repr, DecidableEq

/-- The str-enum value of an `ImageKind` (what `json.dumps` serializes). -/
def ImageKind.toStr : ImageKind → String
  | .input => "input"
  | .background => "background"
  | .foreground => "foreground"
  | .detections => "detections"
  | .redacted_input => "redacted_input"
  | .redacted_foreground => "redacted_foreground"
  | .other => "other"

/-- `ImageKind(s)`: the enum member for a value string, or `none`
(`ValueError`) for an unrecognized string. -/
def imageKindOfStr (s : String) : Option ImageKind :=
  if s = "input" then some .input
  else if s = "background" then some .background
  else if s = "foreground" then some .foreground
  else if s = "detections" then some .detections
  else if s = "redacted_input" then some .redacted_input
  else if s = "redacted_foreground" then some .redacted_foreground
  else if s = "other" then some .other
  else none

/-- Embedding of `Image`: pixel data, kind, and the free-form `_metadata`
keyword arguments. -/
structure Image where
  data : PixelData
  kind : ImageKind
  meta : List (String × String)
  deriving Repr, DecidableEq

/-- Embedding of `Frame`: an `Image` with a capture timestamp. -/
structure Frame (Ts : Type) where
  data : PixelData
  kind : ImageKind
  timestamp : Ts
  meta : List (String × String)

/-- A character that needs no JSON escaping and is ASCII (so `json.dumps`
emits it verbatim and `str.encode` maps it to one byte). -/
def plainChar (c : Char) : Bool :=
  decide (c ≠ '"') && decide (c ≠ '\\') && decide (c.toNat < 128)

/-- All characters of the string are plain. -/
def plainStr (s : String) : Bool := s.data.all plainChar

/-- The string contains no `'@'` (the trailer separator that
`Image.decode` splits on). -/
def atFree (s : String) : Bool := s.data.all fun c => decide (c ≠ '@')

/-- One `"key":"value"` JSON object entry (characters). -/
def jsonEntryChars (kv : String × String) : List Char :=
  '"' :: kv.1.data ++ ('"' :: ':' :: '"' :: kv.2.data ++ ['"'])

/-- The comma-separated entries of a JSON object (characters). -/
def jsonBodyChars : List (String × String) → List Char
  | [] => []
  | [kv] => jsonEntryChars kv
  | kv :: rest => jsonEntryChars kv ++ ',' :: jsonBodyChars rest

/-- `json.dumps(d, separators=(",", ":"))` for a string-valued dict. -/
def jsonDump (m : List (String × String)) : String :=
  match m with
  | [] => "\x7b\x7d"
  | _ => ⟨'\x7b' :: jsonBodyChars m ++ ['\x7d']⟩

/-- Scan up to the closing quote of a JSON string: the characters before
it and the remainder after it, or `none` if the quote never closes. -/
def spanQuote : List Char → Option (List Char × List Char)
  | [] => none
  | c :: rest =>
    if c = '"' then some ([], rest)
    else
      match spanQuote rest with
      | none => none
      | some (s, r) => some (c :: s, r)

/-- Parse one JSON string literal (no escapes; inputs are restricted to
plain strings by the theorems). -/
def parseQuoted : List Char → Option (List Char × List Char)
  | [] => none
  | c :: rest => if c = '"' then spanQuote rest else none

/-- Parse the `"k":"v"(,"k":"v")*\x7d` tail of a JSON object, requiring the
input to end at the closing brace (as `json.loads` does). -/
def parseBody : Nat → List Char → Option (List (String × String))
  | 0, _ => none
  | fuel + 1, cs =>
    match parseQuoted cs with
    | none => none
    | some (k, rest1) =>
      match rest1 with
      | [] => none
      | c1 :: rest2 =>
        if c1 = ':' then
          match parseQuoted rest2 with
          | none => none
          | some (v, rest3) =>
            match rest3 with
            | [] => none
            | c2 :: rest4 =>
              if c2 = ',' then
                match parseBody fuel rest4 with
                | none => none
                | some m => some ((⟨k⟩, ⟨v⟩) :: m)
              else if c2 = '\x7d' ∧ rest4 = [] then some [(⟨k⟩, ⟨v⟩)]
              else none
        else none

/-- `json.loads` for a flat string-valued JSON object (`none` models the
`ValueError` raised on malformed input), on the character list. -/
def jsonParseChars : List Char → Option (List (String × String))
  | [] => none
  | c :: rest =>
    if c = '\x7b' then
      if rest = ['\x7d'] then some []
      else parseBody rest.length rest
    else none

/-- `json.loads` for a flat string-valued JSON object, on a string. -/
def jsonParse (s : String) : Option (List (String × String)) :=
  jsonParseChars s.data

/-- `f"\x7bn:0wd\x7d"`-style formatting: zero-padded to width `w`, or the
full decimal expansion when the value needs more than `w` digits. -/
def pyFormatPad (w n : Nat) : List Char :=
  if n < 10 ^ w then padChars w n else Nat.toDigits 10 n

/-- `str.encode()` on ASCII text: one byte per character. -/
def strToBytes (cs : List Char) : List Nat := cs.map Char.toNat

/-- `bytes.decode()` restricted to ASCII: a non-ASCII byte fails
(modelling `UnicodeDecodeError`, a `ValueError`). -/
def bytesToStr (bs : List Nat) : Option (List Char) :=
  if bs.all fun b => decide (b < 128) then some (bs.map Char.ofNat) else none

/-- `int()` of a run of ASCII digits (`none` models the `ValueError` on
anything else; the signs and whitespace `int()` also accepts never occur on
the inputs the claims are about). -/
def parseDigits (cs : List Char) : Option Nat :=
  if cs ≠ [] ∧ cs.all fun c => decide ('0' ≤ c) && decide (c ≤ '9') then
    some (cs.foldl (fun acc c => acc * 10 + (c.toNat - 48)) 0)
  else none

/-- The serialized `metadata` dict of a frame: `_metadata` entries, then
`kind`, then `timestamp` (insertion order of `Image.metadata` /
`Frame.metadata`). -/
def frameMetaJson {Ts : Type} (tc : TimeCodec Ts) (f : Frame Ts) : String :=
  jsonDump (f.meta ++ [("kind", f.kind.toStr), ("timestamp", tc.fmt f.timestamp)])

/-- Embedding of `Frame.encode` (`Image.encode` with `Frame.metadata`):
compressed image bytes followed by
`f"\x7bmetadata_json\x7d@\x7bmlen:05\x7d#\x7bmver:03\x7d"` with
`mlen = len(metadata_json) + 10` and `mver = 1`. -/
def Frame.encode {Ts : Type} (codec : Codec) (tc : TimeCodec Ts) (f : Frame Ts) :
    List Nat :=
  codec.enc f.data
    ++ strToBytes ((frameMetaJson tc f).data
        ++ '@' :: (pyFormatPad 5 ((frameMetaJson tc f).length + 10)
          ++ '#' :: pyFormatPad 3 1))

/-- The last `n` bytes of a byte string (`bs[-n:]`). -/
def lastN {α : Type} (n : Nat) (l : List α) : List α := l.drop (l.length - n)

/-- The `bs[-9:-4]` slice. -/
def sliceNeg94 (l : List Nat) : List Nat :=
  (l.drop (l.length - 9)).take (l.length - 4 - (l.length - 9))

/-- The shared body of `Image.decode`: decode the pixel data from the whole
byte string, recover the metadata dict from the trailer when the last four
bytes are the `#001` version marker (any failure in that branch is the
caught `ValueError`, re-raised as "Unable to parse metadata"), and fall
back to no metadata otherwise; constructing an `Image` from a failed
`imdecode` (`None`) raises `ValueError` in `Image.__init__`. -/
def imageDecodeRaw (codec : Codec) (bs : List Nat) :
    Except String (PixelData × Option (List (String × String))) :=
  if lastN 4 bs = strToBytes "#001".data then
    match bytesToStr (sliceNeg94 bs) with
    | none => .error "Unable to parse metadata of version #001"
    | some lenChars =>
      match parseDigits lenChars with
      | none => .error "Unable to parse metadata of version #001"
      | some metadataLen =>
        match bytesToStr (lastN metadataLen bs) with
        | none => .error "Unable to parse metadata of version #001"
        | some metaChars =>
          match jsonParse ⟨metaChars.takeWhile fun c => decide (c ≠ '@')⟩ with
          | none => .error "Unable to parse metadata of version #001"
          | some meta =>
            match codec.dec bs with
            | none => .error "Image data must be of type ndarray"
            | some px => .ok (px, some meta)
  else
    match codec.dec bs with
    | none => .error "Image data must be of type ndarray"
    | some px => .ok (px, none)

/-- `metadata or \x7b"kind": ImageKind.input\x7d`: the fallback applies both
when no trailer was recognized (`metadata is None`) and when the parsed
dict is empty (falsy). -/
def metaOrDefault (metaO : Option (List (String × String))) :
    List (String × String) :=
  match metaO with
  | none => [("kind", "input")]
  | some [] => [("kind", "input")]
  | some m => m

/-- Embedding of `Image.decode` for `cls = Image`: `Image.__init__`
requires `kind` (a missing key is a `TypeError`, an unrecognized value a
`ValueError`); remaining keys land in `_metadata`. -/
def Image.decode (codec : Codec) (bs : List Nat) : Except String Image :=
  match imageDecodeRaw codec bs with
  | .error e => .error e
  | .ok (px, metaO) =>
    let meta := metaOrDefault metaO
    match meta.lookup "kind" with
    | none => .error "missing required argument kind"
    | some ks =>
      match imageKindOfStr ks with
      | none => .error "not a valid ImageKind"
      | some k => .ok ⟨px, k, meta.filter fun kv => decide (kv.1 ≠ "kind")⟩

/-- Embedding of `Image.decode` for `cls = Frame`: `Frame.__init__`
defaults `kind` to `input` and `timestamp` to `now()` (`nowT`), parses a
string timestamp with `pintu.util.parse_timestamp`, and keeps the remaining
keys in `_metadata`. -/
def Frame.decode {Ts : Type} (codec : Codec) (tc : TimeCodec Ts) (nowT : Ts)
    (bs : List Nat) : Except String (Frame Ts) :=
  match imageDecodeRaw codec bs with
  | .error e => .error e
  | .ok (px, metaO) =>
    let meta := metaOrDefault metaO
    let kindO := match meta.lookup "kind" with
      | none => some ImageKind.input
      | some ks => imageKindOfStr ks
    match kindO with
    | none => .error "not a valid ImageKind"
    | some k =>
      match meta.lookup "timestamp" with
      | none =>
        .ok ⟨px, k, nowT,
          meta.filter fun kv => decide (kv.1 ≠ "kind") && decide (kv.1 ≠ "timestamp")⟩
      | some ts =>
        match tc.parse ts with
        | none => .error "Not a recognized timestamp format"
        | some t =>
          .ok ⟨px, k, t,
            meta.filter fun kv => decide (kv.1 ≠ "kind") && decide (kv.1 ≠ "timestamp")⟩

theorem spanQuote_plain (s : List Char) (hs : ∀ c ∈ s, c ≠ '"') (rest : List Char) :
    spanQuote (s ++ '"' :: rest) = some (s, rest) := by
  induction s with
  | nil => simp [spanQuote]
  | cons c cs ih =>
    have hc : c ≠ '"' := hs c (by simp)
    rw [List.cons_append, spanQuote, if_neg hc,
      ih (fun d hd => hs d (by simp [hd]))]

theorem parseQuoted_plain (s : List Char) (hs : ∀ c ∈ s, c ≠ '"') (rest : List Char) :
    parseQuoted ('"' :: s ++ '"' :: rest) = some (s, rest) := by
  rw [show ('"' :: s ++ '"' :: rest) = '"' :: (s ++ '"' :: rest) from rfl]
  rw [parseQuoted, if_pos rfl]
  exact spanQuote_plain s hs rest

/-- The entries of a metadata dict contain no quote characters. -/
def QuoteFree (m : List (String × String)) : Prop :=
  ∀ kv ∈ m, (∀ c ∈ kv.1.data, c ≠ '"') ∧ (∀ c ∈ kv.2.data, c ≠ '"')

theorem parseBody_dump (m : List (String × String)) :
    ∀ fuel, m ≠ [] → m.length ≤ fuel → QuoteFree m →
    parseBody fuel (jsonBodyChars m ++ ['\x7d']) = some m := by
  induction m with
  | nil => intro fuel hne; exact absurd rfl hne
  | cons kv m' ih =>
    intro fuel _ hfuel hq
    obtain ⟨fuel2, rfl⟩ : ∃ fuel2, fuel = fuel2 + 1 := by
      cases fuel with
      | zero => exact absurd hfuel (by simp)
      | succ n => exact ⟨n, rfl⟩
    obtain ⟨hk, hv⟩ := hq kv (by simp)
    cases m' with
    | nil =>
      rw [show jsonBodyChars [kv] ++ ['\x7d']
          = '"' :: kv.1.data ++ '"' :: (':' :: ('"' :: kv.2.data ++ '"' :: ['\x7d'])) from by
        simp [jsonBodyChars, jsonEntryChars]]
      rw [parseBody, parseQuoted_plain kv.1.data hk]
      dsimp only
      rw [if_pos rfl, parseQuoted_plain kv.2.data hv]
      dsimp only
      rw [if_neg (by decide), if_pos (by exact ⟨rfl, rfl⟩)]
    | cons kv2 m'' =>
      rw [show jsonBodyChars (kv :: kv2 :: m'') ++ ['\x7d']
          = '"' :: kv.1.data ++ '"' :: (':' :: ('"' :: kv.2.data ++ '"' ::
              (',' :: (jsonBodyChars (kv2 :: m'') ++ ['\x7d'])))) from by
        simp [jsonBodyChars, jsonEntryChars]]
      rw [parseBody, parseQuoted_plain kv.1.data hk]
      dsimp only
      rw [if_pos rfl, parseQuoted_plain kv.2.data hv]
      dsimp only
      rw [if_pos rfl]
      rw [ih fuel2 (by simp) (by simpa using hfuel)
        (fun kv3 h3 => hq kv3 (by simp [h3]))]

theorem length_le_jsonBodyChars (kv : String × String) (m' : List (String × String)) :
    (kv :: m').length ≤ (jsonBodyChars (kv :: m')).length := by
  induction m' generalizing kv with
  | nil => simp [jsonBodyChars, jsonEntryChars]
  | cons kv2 m'' ih2 =>
    rw [show jsonBodyChars (kv :: kv2 :: m'') = jsonEntryChars kv
        ++ ',' :: jsonBodyChars (kv2 :: m'') from rfl]
    have h2 := ih2 kv2
    simp [jsonEntryChars] at *
    omega

theorem jsonParse_dump (m : List (String × String)) (hq : QuoteFree m) :
    jsonParse (jsonDump m) = some m := by
  cases m with
  | nil => rfl
  | cons kv m' =>
    rw [jsonDump, jsonParse]
    show jsonParseChars ('\x7b' :: jsonBodyChars (kv :: m') ++ ['\x7d']) = some (kv :: m')
    rw [show jsonParseChars ('\x7b' :: jsonBodyChars (kv :: m') ++ ['\x7d'])
        = (if jsonBodyChars (kv :: m') ++ ['\x7d'] = ['\x7d'] then some []
          else parseBody (jsonBodyChars (kv :: m') ++ ['\x7d']).length
            (jsonBodyChars (kv :: m') ++ ['\x7d'])) from rfl]
    have hne : ¬(jsonBodyChars (kv :: m') ++ ['\x7d'] = ['\x7d']) := by
      cases m' with
      | nil => simp [jsonBodyChars, jsonEntryChars]
      | cons kv2 m'' => simp [jsonBodyChars, jsonEntryChars]
    rw [if_neg hne]
    apply parseBody_dump
    all_goals first
      | exact hq
      | exact List.cons_ne_nil kv m'
      | (have hlb := length_le_jsonBodyChars kv m'
         simp only [List.length_append, List.length_cons, List.length_nil] at *
         omega)

theorem digitChar_toNat (n : Nat) : (digitChar n).toNat = 48 + n % 10 := by
  unfold digitChar
  have h : n % 10 < 10 := Nat.mod_lt _ (by omega)
  generalize n % 10 = x at h ⊢
  interval_cases x <;> decide

theorem digitChar_digit_bounds (n : Nat) : '0' ≤ digitChar n ∧ digitChar n ≤ '9' := by
  unfold digitChar
  have h : n % 10 < 10 := Nat.mod_lt _ (by omega)
  generalize n % 10 = x at h ⊢
  interval_cases x <;> exact ⟨by decide, by decide⟩

theorem padChars_foldl_digits (w : Nat) :
    ∀ (n acc : Nat), n < 10 ^ w →
    (padChars w n).foldl (fun acc c => acc * 10 + (c.toNat - 48)) acc
      = acc * 10 ^ w + n := by
  induction w with
  | zero =>
    intro n acc hb
    simp at hb
    simp [padChars, hb]
  | succ v ih =>
    intro n acc hb
    rw [padChars, List.foldl_append]
    have hdiv : n / 10 < 10 ^ v := by
      rw [pow_succ] at hb
      omega
    rw [ih (n / 10) acc hdiv]
    simp only [List.foldl_cons, List.foldl_nil, digitChar_toNat]
    have hmod : 48 + n % 10 - 48 = n % 10 := by omega
    rw [hmod, pow_succ]
    have hnm := Nat.div_add_mod n 10
    ring_nf
    omega

theorem parseDigits_padChars (w n : Nat) (hw : 0 < w) (hb : n < 10 ^ w) :
    parseDigits (padChars w n) = some n := by
  unfold parseDigits
  rw [if_pos]
  · rw [padChars_foldl_digits w n 0 hb]
    simp
  · constructor
    · intro hcon
      have := padChars_length w n
      rw [hcon] at this
      simp at this
      omega
    · rw [List.all_eq_true]
      intro c hc
      have : ∀ (v m : Nat), c ∈ padChars v m → '0' ≤ c ∧ c ≤ '9' := by
        intro v
        induction v with
        | zero => intro m hm; simp [padChars] at hm
        | succ u ihu =>
          intro m hm
          rw [padChars, List.mem_append] at hm
          rcases hm with hm | hm
          · exact ihu _ hm
          · simp at hm
            rw [hm]
            exact digitChar_digit_bounds m
      obtain ⟨h0, h9⟩ := this w n hc
      simp [h0, h9]

theorem map_ofNat_toNat (cs : List Char) : (cs.map Char.toNat).map Char.ofNat = cs := by
  induction cs with
  | nil => rfl
  | cons c cs ih => simp [ih, Char.ofNat_toNat]

theorem bytesToStr_strToBytes (cs : List Char) (h : ∀ c ∈ cs, c.toNat < 128) :
    bytesToStr (strToBytes cs) = some cs := by
  unfold bytesToStr strToBytes
  rw [if_pos]
  · rw [map_ofNat_toNat]
  · rw [List.all_eq_true]
    intro b hb
    rw [List.mem_map] at hb
    obtain ⟨c, hc, rfl⟩ := hb
    simpa using h c hc

theorem takeWhile_append_stop (p : Char → Bool) (xs : List Char) (y : Char)
    (rest : List Char) (hxs : ∀ c ∈ xs, p c = true) (hy : p y = false) :
    (xs ++ y :: rest).takeWhile p = xs := by
  induction xs with
  | nil => simp [List.takeWhile_cons, hy]
  | cons c cs ih =>
    rw [List.cons_append, List.takeWhile_cons, hxs c (by simp)]
    rw [ih (fun d hd => hxs d (by simp [hd]))]
    simp

theorem lastN_append {α : Type} (n : Nat) (xs ys : List α) (h : ys.length = n) :
    lastN n (xs ++ ys) = ys := by
  unfold lastN
  rw [List.length_append, h]
  rw [show xs.length + n - n = xs.length from by omega]
  exact List.drop_left xs ys

theorem sliceNeg94_append (A P Q : List Nat) (hP : P.length = 5) (hQ : Q.length = 4) :
    sliceNeg94 (A ++ (P ++ Q)) = P := by
  unfold sliceNeg94
  rw [List.length_append, List.length_append, hP, hQ]
  rw [show A.length + (5 + 4) - 9 = A.length from by omega]
  rw [show A.length + (5 + 4) - 4 - A.length = 5 from by omega]
  rw [List.drop_left A (P ++ Q)]
  rw [show (5 : Nat) = P.length from hP.symm]
  exact List.take_left P Q

theorem lookup_eq_none_of_keys {β : Type} (xs : List (String × β)) (k : String)
    (h : ∀ kv ∈ xs, kv.1 ≠ k) : xs.lookup k = none := by
  induction xs with
  | nil => rfl
  | cons kv rest ih =>
    rw [List.lookup_cons]
    have hne : (k == kv.1) = false := by
      rw [beq_eq_false_iff_ne]
      exact fun he => h kv (by simp) he.symm
    rw [hne]
    simp only [cond_false]
    exact ih (fun kv2 h2 => h kv2 (by simp [h2]))

theorem lookup_append_of_none {β : Type} (xs ys : List (String × β)) (k : String)
    (h : xs.lookup k = none) : (xs ++ ys).lookup k = ys.lookup k := by
  induction xs with
  | nil => simp
  | cons kv rest ih =>
    rw [List.cons_append, List.lookup_cons]
    rw [List.lookup_cons] at h
    cases hbe : (k == kv.1) with
    | true => rw [hbe] at h; simp at h
    | false =>
      rw [hbe] at h
      simp only [cond_false] at h ⊢
      exact ih h

theorem plainStr_spec (s : String) (h : plainStr s = true) :
    ∀ c ∈ s.data, c ≠ '"' ∧ c ≠ '\\' ∧ c.toNat < 128 := by
  intro c hc
  rw [plainStr, List.all_eq_true] at h
  have h2 := h c hc
  rw [plainChar] at h2
  simp at h2
  exact ⟨h2.1.1, h2.1.2, h2.2⟩

theorem atFree_spec (s : String) (h : atFree s = true) : ∀ c ∈ s.data, c ≠ '@' := by
  intro c hc
  rw [atFree, List.all_eq_true] at h
  have h2 := h c hc
  simpa using h2

theorem jsonEntryChars_forall (P : Char → Prop) (hq : P '"') (hc : P ':')
    (kv : String × String) (h1 : ∀ c ∈ kv.1.data, P c) (h2 : ∀ c ∈ kv.2.data, P c) :
    ∀ c ∈ jsonEntryChars kv, P c := by
  intro c hcc
  simp only [jsonEntryChars] at hcc
  rw [List.mem_append] at hcc
  rcases hcc with hcc | hcc
  · rw [List.mem_cons] at hcc
    rcases hcc with rfl | hcc
    · exact hq
    · exact h1 c hcc
  rw [List.mem_append] at hcc
  rcases hcc with hcc | hcc
  · rw [List.mem_cons] at hcc
    rcases hcc with rfl | hcc
    · exact hq
    rw [List.mem_cons] at hcc
    rcases hcc with rfl | hcc
    · exact hc
    rw [List.mem_cons] at hcc
    rcases hcc with rfl | hcc
    · exact hq
    · exact h2 c hcc
  · rw [List.mem_singleton] at hcc
    rw [hcc]
    exact hq

theorem jsonBodyChars_forall (P : Char → Prop) (hq : P '"') (hc : P ':') (hcm : P ',')
    (m : List (String × String))
    (hm : ∀ kv ∈ m, (∀ c ∈ kv.1.data, P c) ∧ (∀ c ∈ kv.2.data, P c)) :
    ∀ c ∈ jsonBodyChars m, P c := by
  induction m with
  | nil => intro c hcc; simp [jsonBodyChars] at hcc
  | cons kv m' ih =>
    obtain ⟨h1, h2⟩ := hm kv (by simp)
    have hentry := jsonEntryChars_forall P hq hc kv h1 h2
    cases m' with
    | nil => exact hentry
    | cons kv2 m'' =>
      intro c hcc
      rw [show jsonBodyChars (kv :: kv2 :: m'') = jsonEntryChars kv
          ++ ',' :: jsonBodyChars (kv2 :: m'') from rfl, List.mem_append] at hcc
      rcases hcc with hcc | hcc
      · exact hentry c hcc
      rw [List.mem_cons] at hcc
      rcases hcc with rfl | hcc
      · exact hcm
      · exact ih (fun kv3 h3 => hm kv3 (by simp [h3])) c hcc

theorem jsonDump_forall (P : Char → Prop) (hq : P '"') (hc : P ':') (hcm : P ',')
    (hob : P '\x7b') (hcb : P '\x7d') (m : List (String × String))
    (hm : ∀ kv ∈ m, (∀ c ∈ kv.1.data, P c) ∧ (∀ c ∈ kv.2.data, P c)) :
    ∀ c ∈ (jsonDump m).data, P c := by
  cases m with
  | nil =>
    intro c hcc
    rw [show (jsonDump ([] : List (String × String))).data = ['\x7b', '\x7d'] from rfl,
      List.mem_cons] at hcc
    rcases hcc with rfl | hcc
    · exact hob
    · rw [List.mem_singleton] at hcc
      rw [hcc]
      exact hcb
  | cons kv m' =>
    intro c hcc
    rw [show (jsonDump (kv :: m')).data
        = ('\x7b' :: jsonBodyChars (kv :: m')) ++ ['\x7d'] from rfl,
      List.mem_append] at hcc
    rcases hcc with hcc | hcc
    · rw [List.mem_cons] at hcc
      rcases hcc with rfl | hcc
      · exact hob
      · exact jsonBodyChars_forall P hq hc hcm (kv :: m') hm c hcc
    · rw [List.mem_singleton] at hcc
      rw [hcc]
      exact hcb

theorem mem_padChars_ascii (w : Nat) : ∀ (n : Nat), ∀ c ∈ padChars w n, c.toNat < 128 := by
  induction w with
  | zero => intro n c hc; simp [padChars] at hc
  | succ v ih =>
    intro n c hc
    rw [padChars, List.mem_append] at hc
    rcases hc with hc | hc
    · exact ih _ c hc
    · simp at hc
      rw [hc, digitChar_toNat]
      have := Nat.mod_lt n (show 0 < 10 by omega)
      omega

/-- The kind value strings contain neither quotes, backslashes, `'@'` nor
non-ASCII characters. -/
theorem kindStr_plain (k : ImageKind) :
    (∀ c ∈ (ImageKind.toStr k).data, c ≠ '"')
    ∧ (∀ c ∈ (ImageKind.toStr k).data, c ≠ '@')
    ∧ (∀ c ∈ (ImageKind.toStr k).data, c.toNat < 128) := by
  cases k <;> exact ⟨by decide, by decide, by decide⟩

/-- C3 (amended): provided the pixel codec losslessly decodes its own
output ignoring appended trailing bytes, the timestamp serialization parses
back to the same timestamp, the free-form metadata is quote-, backslash-
and `'@'`-free ASCII with keys distinct from `kind`/`timestamp`, the
serialized timestamp is likewise plain and `'@'`-free, and the serialized
metadata is shorter than the 5-digit length field allows, then
`decode(encode(frame))` reproduces the frame exactly: identical pixel data,
kind, timestamp and metadata. -/
theorem claim_C3_encode_decode_roundtrip {Ts : Type} (codec : Codec) (tc : TimeCodec Ts)
    (nowT : Ts) (f : Frame Ts)
    (hcodec : ∀ px junk, codec.dec (codec.enc px ++ junk) = some px)
    (htc : tc.parse (tc.fmt f.timestamp) = some f.timestamp)
    (hmeta : ∀ kv ∈ f.meta, plainStr kv.1 ∧ plainStr kv.2 ∧ atFree kv.1 ∧ atFree kv.2
        ∧ kv.1 ≠ "kind" ∧ kv.1 ≠ "timestamp")
    (hts : plainStr (tc.fmt f.timestamp) ∧ atFree (tc.fmt f.timestamp))
    (hlen : (frameMetaJson tc f).length + 10 < 100000) :
    Frame.decode codec tc nowT (Frame.encode codec tc f) = .ok f := by
  have hkindp := kindStr_plain f.kind
  have hentriesP : ∀ kv ∈ (f.meta
      ++ [("kind", f.kind.toStr), ("timestamp", tc.fmt f.timestamp)]),
      (∀ c ∈ kv.1.data, c ≠ '"' ∧ c ≠ '@' ∧ c.toNat < 128)
      ∧ (∀ c ∈ kv.2.data, c ≠ '"' ∧ c ≠ '@' ∧ c.toNat < 128) := by
    intro kv hkv
    rw [List.mem_append] at hkv
    rcases hkv with hkv | hkv
    · obtain ⟨p1, p2, a1, a2, _, _⟩ := hmeta kv hkv
      exact ⟨fun c hc => ⟨(plainStr_spec _ p1 c hc).1, atFree_spec _ a1 c hc,
          (plainStr_spec _ p1 c hc).2.2⟩,
        fun c hc => ⟨(plainStr_spec _ p2 c hc).1, atFree_spec _ a2 c hc,
          (plainStr_spec _ p2 c hc).2.2⟩⟩
    · rw [List.mem_cons] at hkv
      rcases hkv with rfl | hkv
      · exact ⟨fun c hc => (by decide :
            ∀ c ∈ ("kind" : String).data, c ≠ '"' ∧ c ≠ '@' ∧ c.toNat < 128) c hc,
          fun c hc => ⟨hkindp.1 c hc, hkindp.2.1 c hc, hkindp.2.2 c hc⟩⟩
      · simp only [List.mem_singleton] at hkv
        rw [hkv]
        exact ⟨fun c hc => (by decide :
            ∀ c ∈ ("timestamp" : String).data, c ≠ '"' ∧ c ≠ '@' ∧ c.toNat < 128) c hc,
          fun c hc => ⟨(plainStr_spec _ hts.1 c hc).1, atFree_spec _ hts.2 c hc,
            (plainStr_spec _ hts.1 c hc).2.2⟩⟩
  have hJall : ∀ c ∈ (frameMetaJson tc f).data, c ≠ '@' ∧ c.toNat < 128 := by
    apply jsonDump_forall (fun c => c ≠ '@' ∧ c.toNat < 128)
      (by exact ⟨by decide, by decide⟩) (by exact ⟨by decide, by decide⟩)
      (by exact ⟨by decide, by decide⟩) (by exact ⟨by decide, by decide⟩)
      (by exact ⟨by decide, by decide⟩)
    intro kv hkv
    obtain ⟨h1, h2⟩ := hentriesP kv hkv
    exact ⟨fun c hc => ⟨(h1 c hc).2.1, (h1 c hc).2.2⟩,
      fun c hc => ⟨(h2 c hc).2.1, (h2 c hc).2.2⟩⟩
  have hqf : QuoteFree (f.meta
      ++ [("kind", f.kind.toStr), ("timestamp", tc.fmt f.timestamp)]) := by
    intro kv hkv
    obtain ⟨h1, h2⟩ := hentriesP kv hkv
    exact ⟨fun c hc => (h1 c hc).1, fun c hc => (h2 c hc).1⟩
  have hmlt : (frameMetaJson tc f).length + 10 < 10 ^ 5 := by
    have hpow : (10 : Nat) ^ 5 = 100000 := by norm_num
    omega
  have h5 : pyFormatPad 5 ((frameMetaJson tc f).length + 10)
      = padChars 5 ((frameMetaJson tc f).length + 10) := by
    rw [pyFormatPad, if_pos hmlt]
  have h3 : pyFormatPad 3 1 = ['0', '0', '1'] := by decide
  have hbytes : Frame.encode codec tc f
      = codec.enc f.data ++ strToBytes ((frameMetaJson tc f).data
          ++ '@' :: (padChars 5 ((frameMetaJson tc f).length + 10)
            ++ '#' :: ['0', '0', '1'])) := by
    rw [Frame.encode, h5, h3]
  -- the trailer character list and its basic properties
  have hTClen : (strToBytes ((frameMetaJson tc f).data
      ++ '@' :: (padChars 5 ((frameMetaJson tc f).length + 10)
        ++ '#' :: ['0', '0', '1']))).length
      = (frameMetaJson tc f).length + 10 := by
    rw [strToBytes, List.length_map,
      show (frameMetaJson tc f).length = (frameMetaJson tc f).data.length from rfl]
    simp only [List.length_append, List.length_cons, padChars_length, List.length_nil]
    all_goals omega
  have hTCascii : ∀ c ∈ ((frameMetaJson tc f).data
      ++ '@' :: (padChars 5 ((frameMetaJson tc f).length + 10)
        ++ '#' :: ['0', '0', '1'])), c.toNat < 128 := by
    intro c hc
    rw [List.mem_append] at hc
    rcases hc with hc | hc
    · exact (hJall c hc).2
    rw [List.mem_cons] at hc
    rcases hc with rfl | hc
    · decide
    rw [List.mem_append] at hc
    rcases hc with hc | hc
    · exact mem_padChars_ascii 5 _ c hc
    rw [List.mem_cons] at hc
    rcases hc with rfl | hc
    · decide
    · simp at hc
      rcases hc with rfl | rfl | rfl <;> decide
  have hlast4 : lastN 4 (Frame.encode codec tc f) = strToBytes "#001".data := by
    rw [hbytes]
    rw [show codec.enc f.data ++ strToBytes ((frameMetaJson tc f).data
        ++ '@' :: (padChars 5 ((frameMetaJson tc f).length + 10)
          ++ '#' :: ['0', '0', '1']))
      = (codec.enc f.data ++ strToBytes ((frameMetaJson tc f).data
          ++ '@' :: padChars 5 ((frameMetaJson tc f).length + 10)))
        ++ strToBytes ('#' :: ['0', '0', '1']) from by
      simp [strToBytes, List.append_assoc]]
    rw [lastN_append 4 _ _ (by simp [strToBytes])]
  have hslice : sliceNeg94 (Frame.encode codec tc f)
      = strToBytes (padChars 5 ((frameMetaJson tc f).length + 10)) := by
    rw [hbytes]
    rw [show codec.enc f.data ++ strToBytes ((frameMetaJson tc f).data
        ++ '@' :: (padChars 5 ((frameMetaJson tc f).length + 10)
          ++ '#' :: ['0', '0', '1']))
      = (codec.enc f.data ++ strToBytes ((frameMetaJson tc f).data ++ ['@']))
        ++ (strToBytes (padChars 5 ((frameMetaJson tc f).length + 10))
          ++ strToBytes ('#' :: ['0', '0', '1'])) from by
      simp [strToBytes, List.append_assoc]]
    exact sliceNeg94_append _ _ _ (by simp [strToBytes, padChars_length])
      (by simp [strToBytes])
  have hlastm : lastN ((frameMetaJson tc f).length + 10) (Frame.encode codec tc f)
      = strToBytes ((frameMetaJson tc f).data
        ++ '@' :: (padChars 5 ((frameMetaJson tc f).length + 10)
          ++ '#' :: ['0', '0', '1'])) := by
    rw [hbytes]
    exact lastN_append _ _ _ hTClen
  have hpadascii : ∀ c ∈ padChars 5 ((frameMetaJson tc f).length + 10), c.toNat < 128 :=
    mem_padChars_ascii 5 _
  have htake : List.takeWhile (fun c => decide (c ≠ '@'))
      ((frameMetaJson tc f).data
        ++ '@' :: (padChars 5 ((frameMetaJson tc f).length + 10)
          ++ '#' :: ['0', '0', '1']))
      = (frameMetaJson tc f).data := by
    apply takeWhile_append_stop
    · intro c hc
      simp [(hJall c hc).1]
    · decide
  have hJeta : (⟨(frameMetaJson tc f).data⟩ : String) = frameMetaJson tc f := rfl
  have hdecpx : codec.dec (Frame.encode codec tc f) = some f.data := by
    rw [hbytes]
    exact hcodec f.data _
  have hraw : imageDecodeRaw codec (Frame.encode codec tc f)
      = .ok (f.data, some (f.meta
          ++ [("kind", f.kind.toStr), ("timestamp", tc.fmt f.timestamp)])) := by
    rw [imageDecodeRaw, if_pos hlast4, hslice,
      bytesToStr_strToBytes _ hpadascii]
    dsimp only
    rw [parseDigits_padChars 5 _ (by norm_num) hmlt]
    dsimp only
    rw [hlastm, bytesToStr_strToBytes _ (fun c hc => hTCascii c hc)]
    dsimp only
    rw [htake, hJeta]
    rw [show jsonParse (frameMetaJson tc f) = some (f.meta
        ++ [("kind", f.kind.toStr), ("timestamp", tc.fmt f.timestamp)]) from
      jsonParse_dump _ hqf]
    dsimp only
    rw [hdecpx]
  have hmetaor : metaOrDefault (some (f.meta
      ++ [("kind", f.kind.toStr), ("timestamp", tc.fmt f.timestamp)]))
      = f.meta ++ [("kind", f.kind.toStr), ("timestamp", tc.fmt f.timestamp)] := by
    cases hfm : f.meta with
    | nil => rfl
    | cons x xs => rfl
  have hlkind : (f.meta
      ++ [("kind", f.kind.toStr), ("timestamp", tc.fmt f.timestamp)]).lookup "kind"
      = some f.kind.toStr := by
    rw [lookup_append_of_none _ _ _ (lookup_eq_none_of_keys f.meta "kind"
      (fun kv hkv => (hmeta kv hkv).2.2.2.2.1))]
    simp [List.lookup_cons]
  have hltime : (f.meta
      ++ [("kind", f.kind.toStr), ("timestamp", tc.fmt f.timestamp)]).lookup "timestamp"
      = some (tc.fmt f.timestamp) := by
    rw [lookup_append_of_none _ _ _ (lookup_eq_none_of_keys f.meta "timestamp"
      (fun kv hkv => (hmeta kv hkv).2.2.2.2.2))]
    simp [List.lookup_cons]
  have hkofs : imageKindOfStr f.kind.toStr = some f.kind := by
    cases f.kind <;> rfl
  have hfil : (f.meta
      ++ [("kind", f.kind.toStr), ("timestamp", tc.fmt f.timestamp)]).filter
        (fun kv => decide (kv.1 ≠ "kind") && decide (kv.1 ≠ "timestamp"))
      = f.meta := by
    rw [List.filter_append]
    rw [show ([("kind", f.kind.toStr), ("timestamp", tc.fmt f.timestamp)]
        : List (String × String)).filter
          (fun kv => decide (kv.1 ≠ "kind") && decide (kv.1 ≠ "timestamp")) = [] from by
      simp]
    rw [List.append_nil]
    apply List.filter_eq_self.mpr
    intro kv hkv
    have h := hmeta kv hkv
    simp [h.2.2.2.2.1, h.2.2.2.2.2]
  rw [Frame.decode, hraw]
  dsimp only
  rw [hmetaor, hlkind]
  dsimp only
  rw [hkofs]
  dsimp only
  rw [hltime]
  dsimp only
  rw [htc]
  dsimp only
  rw [hfil]

/-- Leading run of `1` bytes (used by the demonstration pixel codec). -/
def countLeadOnes : List Nat → Nat
  | 1 :: rest => countLeadOnes rest + 1
  | _ => 0

/-- A concrete lossless pixel codec for witnesses: a unary length header,
a `0` separator, then the raw pixel bytes.  Decoding reads the header and
ignores everything after the encoded pixels, as `cv2.imdecode` ignores
bytes appended after a complete compressed image. -/
def unaryCodec : Codec where
  enc px := List.replicate px.length 1 ++ 0 :: px
  dec bs := some ((bs.drop (countLeadOnes bs + 1)).take (countLeadOnes bs))

/-- A trivial timestamp codec over `String` for witnesses: format is the
identity and parsing always succeeds. -/
def idTimeCodec : TimeCodec String where
  fmt := id
  parse := some

theorem countLeadOnes_replicate (n : Nat) (rest : List Nat) :
    countLeadOnes (List.replicate n 1 ++ 0 :: rest) = n := by
  induction n with
  | zero => rfl
  | succ m ih =>
    rw [List.replicate_succ, List.cons_append,
      show countLeadOnes (1 :: (List.replicate m 1 ++ 0 :: rest))
        = countLeadOnes (List.replicate m 1 ++ 0 :: rest) + 1 from rfl, ih]

/-- The demonstration codec decodes its own output, ignoring any appended
trailing bytes. -/
theorem unary_roundtrip :
    ∀ px junk, unaryCodec.dec (unaryCodec.enc px ++ junk) = some px := by
  intro px junk
  have hb : unaryCodec.enc px ++ junk
      = List.replicate px.length 1 ++ 0 :: (px ++ junk) := by
    simp [unaryCodec, List.append_assoc]
  rw [show unaryCodec.dec (unaryCodec.enc px ++ junk)
      = some (((unaryCodec.enc px ++ junk).drop
          (countLeadOnes (unaryCodec.enc px ++ junk) + 1)).take
          (countLeadOnes (unaryCodec.enc px ++ junk))) from rfl]
  rw [hb, countLeadOnes_replicate]
  rw [show List.replicate px.length 1 ++ 0 :: (px ++ junk)
      = (List.replicate px.length 1 ++ [0]) ++ (px ++ junk) from by
    simp [List.append_assoc]]
  rw [List.drop_left' (by simp), List.take_left' rfl]

/-- Witness for C3 (amended) at the demonstration codecs and a concrete
frame with plain metadata. -/
theorem claim_C3_encode_decode_roundtrip_witness :
    Frame.decode unaryCodec idTimeCodec "now"
      (Frame.encode unaryCodec idTimeCodec
        ⟨[5, 7], ImageKind.input, "20220101", [("note", "hi")]⟩)
      = .ok ⟨[5, 7], ImageKind.input, "20220101", [("note", "hi")]⟩ :=
  claim_C3_encode_decode_roundtrip unaryCodec idTimeCodec "now"
    ⟨[5, 7], ImageKind.input, "20220101", [("note", "hi")]⟩
    unary_roundtrip rfl (by decide) (by decide) (by decide)

/-- C3 counterexample: a frame whose free-form metadata value contains the
byte `'@'` is a valid frame, yet `decode(encode(frame))` does not reproduce
it: decoding splits the trailer on the FIRST `'@'`, truncating the metadata
JSON, whose parse then fails, so decoding raises
"Unable to parse metadata of version #001" instead of returning the frame. -/
theorem claim_C3_at_sign_breaks_roundtrip :
    Frame.decode unaryCodec idTimeCodec "now"
      (Frame.encode unaryCodec idTimeCodec
        ⟨[5], ImageKind.input, "20220101", [("note", "a@b")]⟩)
      = .error "Unable to parse metadata of version #001" := by
  rfl

/-- C8: any byte string whose pixel payload decodes but whose last four
bytes are not the version marker `#001` decodes successfully to an image
with `kind = input` and no further metadata: the missing trailer leaves
`metadata = None`, the fallback dict supplies only `kind: input`, and the
`kind` key is removed from the stored metadata. -/
theorem claim_C8_no_trailer_defaults (codec : Codec) (bs : List Nat) (px : PixelData)
    (htr : lastN 4 bs ≠ strToBytes "#001".data)
    (hdec : codec.dec bs = some px) :
    Image.decode codec bs = .ok ⟨px, ImageKind.input, []⟩ := by
  rw [Image.decode, imageDecodeRaw, if_neg htr, hdec]
  rfl

/-- Witness for C8: three bytes that are no `#001` trailer decode to the
pixel list `[7]` with kind `input` and empty metadata. -/
theorem claim_C8_no_trailer_defaults_witness :
    Image.decode unaryCodec [1, 0, 7] = .ok ⟨[7], ImageKind.input, []⟩ :=
  claim_C8_no_trailer_defaults unaryCodec [1, 0, 7] [7] (by decide) rfl

/-- Witness for C2 at `N = 2`, `k = 1`, `fs = [10, 20, 30]`. -/
theorem claim_C2_frame_buffer_fifo_witness :
    (1 ≤ 2 ∧ ([10, 20, 30] : List Nat).length = 2 + 1)
    ∧ (((FrameBuffer.shiftAll ⟨2, []⟩ [10, 20, 30]).data.length = 2
      ∧ (FrameBuffer.shiftAll ⟨2, []⟩ [10, 20, 30]).data = [10, 20, 30].drop 1)
    ∧ (∀ i, i ≤ 2 + 1 →
        ((FrameBuffer.shiftAll ⟨2, []⟩ ([10, 20, 30].take i)).full = true
          ↔ (FrameBuffer.shiftAll ⟨2, []⟩ ([10, 20, 30].take i)).data.length = 2))
    ∧ (∀ i, i < 2 + 1 → ∀ x,
        (FrameBuffer.shift (FrameBuffer.shiftAll ⟨2, []⟩ ([10, 20, 30].take i)) x).1
          = if 2 ≤ i then [10, 20, 30][i - 2]? else none)) :=
  ⟨⟨by decide, by decide⟩,
    claim_C2_frame_buffer_fifo Nat 2 1 [10, 20, 30] (by decide) (by decide)⟩

end Pintu
